import Mathlib

/-!
Verification of the two-stage deduplication engine of the strike-report
pipeline (src/dedup.py and src/filter_and_extract.py).

Python strings are modelled through their character lists, and every string
operation used by the source (lower-casing, transliteration, splitting,
stripping, lexicographic comparison) is re-implemented structurally so that
all definitions compute.  Latitude and longitude values are modelled as
optional rationals; the floating-point haversine distance is abstracted as
an explicit function parameter `hav` of the predicates that use it, so all
theorems hold for every distance function, in particular for the real one.
-/

/-- Python code-point lexicographic comparison of strings (the order used by
sort and by sorted). -/
def lexLe : List Char → List Char → Bool
  | [], _ => true
  | _ :: _, [] => false
  | a :: as, b :: bs =>
    if a.toNat < b.toNat then true
    else if b.toNat < a.toNat then false
    else lexLe as bs

/-- str.lower on one character, covering the ASCII range and the Cyrillic
letters that the transliteration table knows. -/
def pyLowerChar (c : Char) : Char :=
  if 0x410 ≤ c.toNat && c.toNat ≤ 0x42F then Char.ofNat (c.toNat + 0x20)
  else if c = 'Ё' then 'ё' else if c = 'І' then 'і' else if c = 'Ї' then 'ї'
  else if c = 'Є' then 'є' else if c = 'Ґ' then 'ґ'
  else c.toLower

/-- str.lower, modelling the ranges the pipeline feeds it. -/
def pyLower (l : List Char) : List Char := l.map pyLowerChar

/-- One character of the Cyrillic to Latin transliteration table of
src/dedup.py (the dict passed to str.maketrans); characters outside the
table are kept. -/
def translitChar (c : Char) : List Char :=
  if c = 'а' then ['a'] else if c = 'б' then ['b'] else if c = 'в' then ['v']
  else if c = 'г' then ['g'] else if c = 'д' then ['d'] else if c = 'е' then ['e']
  else if c = 'ё' then ['e'] else if c = 'ж' then ['z', 'h'] else if c = 'з' then ['z']
  else if c = 'и' then ['i'] else if c = 'й' then ['y'] else if c = 'к' then ['k']
  else if c = 'л' then ['l'] else if c = 'м' then ['m'] else if c = 'н' then ['n']
  else if c = 'о' then ['o'] else if c = 'п' then ['p'] else if c = 'р' then ['r']
  else if c = 'с' then ['s'] else if c = 'т' then ['t'] else if c = 'у' then ['u']
  else if c = 'ф' then ['f'] else if c = 'х' then ['k', 'h'] else if c = 'ц' then ['t', 's']
  else if c = 'ч' then ['c', 'h'] else if c = 'ш' then ['s', 'h']
  else if c = 'щ' then ['s', 'h', 'c', 'h'] else if c = 'ъ' then []
  else if c = 'ы' then ['y'] else if c = 'ь' then [] else if c = 'э' then ['e']
  else if c = 'ю' then ['y', 'u'] else if c = 'я' then ['y', 'a']
  else if c = 'і' then ['i'] else if c = 'ї' then ['y', 'i']
  else if c = 'є' then ['y', 'e'] else if c = 'ґ' then ['g']
  else if c = '\'' then [] else if c = '’' then [] else if c = 'ʼ' then []
  else if c = Char.ofNat 96 then []
  else [c]

/-- str.translate with the transliteration table. -/
def translit (l : List Char) : List Char := l.flatMap translitChar

/-- Leading and trailing whitespace removal (str.strip). -/
def stripChars (l : List Char) : List Char :=
  ((l.dropWhile Char.isWhitespace).reverse.dropWhile Char.isWhitespace).reverse

/-- str.split with no argument: whitespace-separated words, empties dropped. -/
def pyWords (l : List Char) : List (List Char) :=
  (l.splitOnP Char.isWhitespace).filter (· ≠ [])

/-- Interleave a separator between string pieces (sep.join). -/
def joinWith (sep : List Char) : List (List Char) → List Char
  | [] => []
  | [a] => a
  | a :: b :: rest => a ++ sep ++ joinWith sep (b :: rest)

/-- _normalize of src/dedup.py: lower-case, strip, transliterate, drop
characters that are neither alphanumeric nor a space, collapse whitespace. -/
def pyNormalize (s : String) : List Char :=
  let t := translit (stripChars (pyLower s.data))
  let u := t.filter (fun c => c.isAlphanum || c = ' ')
  joinWith [' '] (pyWords u)

/-- Python substring containment a in b (contiguous). -/
def prefB : List Char → List Char → Bool
  | [], _ => true
  | _ :: _, [] => false
  | a :: as, b :: bs => a = b && prefB as bs

/-- Contiguous substring test, the string operator in of Python. -/
def infixB (a : List Char) : List Char → Bool
  | [] => a.isEmpty
  | b :: bs => prefB a (b :: bs) || infixB a bs

/-- Proleptic Gregorian leap-year test, as datetime uses. -/
def isLeap (y : ℕ) : Bool := y % 4 = 0 && (y % 100 ≠ 0 || y % 400 = 0)

/-- Length of a month, as datetime validates it. -/
def monthLen (y m : ℕ) : ℕ :=
  if m = 2 then (if isLeap y then 29 else 28)
  else if m = 4 || m = 6 || m = 9 || m = 11 then 30 else 31

/-- Days in the months strictly before month m of year y. -/
def daysBefore (y m : ℕ) : ℕ :=
  ((List.range m).filter (1 ≤ ·)).foldl (fun acc k => acc + monthLen y k) 0

/-- datetime.toordinal: day number of a calendar date, so that differences of
ordinals are the day differences the matcher compares. -/
def toOrd (y m d : ℕ) : ℤ :=
  365 * ((y : ℤ) - 1) + ((y : ℤ) - 1) / 4 - ((y : ℤ) - 1) / 100
    + ((y : ℤ) - 1) / 400 + (daysBefore y m : ℤ) + (d : ℤ)

/-- strptime month field: two-digit form 01 to 12 first, else one digit 1 to
9, exactly the regex alternation strptime compiles for the %m directive. -/
def parseMonth : List Char → Option (ℕ × List Char)
  | a :: b :: rest =>
    if (a = '0' && b.isDigit && b ≠ '0') || (a = '1' && (b = '0' || b = '1' || b = '2')) then
      some ((a.toNat - 48) * 10 + (b.toNat - 48), rest)
    else if a.isDigit && a ≠ '0' then some (a.toNat - 48, b :: rest)
    else none
  | [a] => if a.isDigit && a ≠ '0' then some (a.toNat - 48, []) else none
  | [] => none

/-- strptime day field, the regex for the %d directive. -/
def parseDay : List Char → Option (ℕ × List Char)
  | a :: b :: rest =>
    if (a = '0' && b.isDigit && b ≠ '0') || ((a = '1' || a = '2') && b.isDigit)
        || (a = '3' && (b = '0' || b = '1')) then
      some ((a.toNat - 48) * 10 + (b.toNat - 48), rest)
    else if a.isDigit && a ≠ '0' then some (a.toNat - 48, b :: rest)
    else none
  | [a] => if a.isDigit && a ≠ '0' then some (a.toNat - 48, []) else none
  | [] => none

/-- _parse_date of src/dedup.py: strptime of the first ten characters with
format %Y-%m-%d, returning the ordinal day number; None on failure, including
calendar validation (day beyond the month length, year below 1). -/
def parse_date (s : String) : Option ℤ :=
  match s.data.take 10 with
  | y1 :: y2 :: y3 :: y4 :: h1 :: rest =>
    if y1.isDigit && y2.isDigit && y3.isDigit && y4.isDigit && h1 = '-' then
      let y := ((((y1.toNat - 48) * 10 + (y2.toNat - 48)) * 10 + (y3.toNat - 48)) * 10
        + (y4.toNat - 48))
      match parseMonth rest with
      | some (m, h2 :: rest2) =>
        if h2 = '-' then
          match parseDay rest2 with
          | some (d, []) => if 1 ≤ y && d ≤ monthLen y m then some (toOrd y m d) else none
          | _ => none
        else none
      | _ => none
    else none
  | _ => none

/-- Python truthiness of a json value modelling the maritime field: the
booleans True and False, a string, or null/absent. -/
inductive MVal where
  | mnone : MVal
  | mbool : Bool → MVal
  | mstr : String → MVal
deriving DecidableEq

/-- The maritime test of _merge_cluster: the value is True, or the string
true. -/
def mIsTrue : MVal → Bool
  | .mbool true => true
  | .mstr s => s = "true"
  | _ => false

/-- An incident record as stage 2 reads it.  String fields that the code
reads with a default of the empty string are plain strings, with the empty
string standing for an absent or null field, exactly as the code then treats
them.  The confidence and target-type fields keep absence explicit because
the code uses different defaults for them in different places.  Coordinates
are optional rationals; Python non-numbers are out of this model. -/
structure Rec where
  date : String := ""
  city : String := ""
  region : String := ""
  facility_name : String := ""
  target_type : Option String := none
  damage_summary : String := ""
  original_text : String := ""
  latitude : Option ℚ := none
  longitude : Option ℚ := none
  confidence : Option String := none
  maritime : MVal := .mnone
  source_channel : String := ""
  source_message_id : String := ""
  message_date : String := ""
  first_message_date : Option String := none
  last_message_date : Option String := none
  last_event_date : Option String := none
  dedup_note : Option String := none
deriving DecidableEq

/-- Truthiness of an optional numeric field, the guard the code applies to
latitude and longitude: absent, null and zero are falsy. -/
def pyTruthy : Option ℚ → Bool
  | none => false
  | some q => q ≠ 0

/-- A record has usable coordinates when both fields are truthy. -/
def hasCoords (r : Rec) : Bool := pyTruthy r.latitude && pyTruthy r.longitude

/-- The coordinate branch of _locations_match: both records have truthy
coordinates and the haversine distance is below 50 km.  The distance
function is the abstract parameter hav. -/
def coordClose (hav : ℚ → ℚ → ℚ → ℚ → ℚ) (a b : Rec) : Bool :=
  if hasCoords a && hasCoords b then
    hav (a.latitude.getD 0) (a.longitude.getD 0) (b.latitude.getD 0) (b.longitude.getD 0) < 50
  else false

/-- The city branch of _locations_match: both normalized names non-empty
and equal, one a substring of the other, or sharing their first five
characters when both have at least five. -/
def cityMatch (a b : Rec) : Bool :=
  let ca := pyNormalize a.city
  let cb := pyNormalize b.city
  ca ≠ [] && cb ≠ [] &&
    (ca = cb || infixB ca cb || infixB cb ca ||
      (5 ≤ ca.length && 5 ≤ cb.length && ca.take 5 = cb.take 5))

/-- The region-and-facility branch of _locations_match: equal non-empty
normalized regions and substring-compatible non-empty facility names. -/
def regionFacilityMatch (a b : Rec) : Bool :=
  let ra := pyNormalize a.region
  let rb := pyNormalize b.region
  let fa := pyNormalize a.facility_name
  let fb := pyNormalize b.facility_name
  ra ≠ [] && rb ≠ [] && ra = rb && fa ≠ [] && fb ≠ [] && (infixB fa fb || infixB fb fa)

/-- _locations_match of src/dedup.py: coordinate proximity, else the city
branch, else the region-and-facility branch. -/
def locations_match (hav : ℚ → ℚ → ℚ → ℚ → ℚ) (a b : Rec) : Bool :=
  if coordClose hav a b then true
  else if cityMatch a b then true
  else regionFacilityMatch a b

/-- _locations_weak_match of src/dedup.py: both records city-less, same
non-empty normalized region, and not two distinct incompatible facility
names. -/
def locations_weak_match (a b : Rec) : Bool :=
  let ca := pyNormalize a.city
  let cb := pyNormalize b.city
  if ca ≠ [] || cb ≠ [] then false
  else
    let ra := pyNormalize a.region
    let rb := pyNormalize b.region
    if ra = [] || rb = [] || ra ≠ rb then false
    else
      let fa := pyNormalize a.facility_name
      let fb := pyNormalize b.facility_name
      if fa ≠ [] && fb ≠ [] then infixB fa fb || infixB fb fa
      else true

/-- The compatible target-type groups of src/dedup.py. -/
def COMPATIBLE_TYPES : List (List String) :=
  [["military_base", "command_post"], ["fuel_depot", "oil_refinery"]]

/-- The normalized target type: a.get(target_type) or other, lower-cased, so
absence, null and the empty string all become the wildcard. -/
def normTT (t : Option String) : List Char :=
  match t with
  | none => "other".data
  | some s => if s.data = [] then "other".data else pyLower s.data

/-- _same_target_type of src/dedup.py. -/
def same_target_type (a b : Rec) : Bool :=
  let ta := normTT a.target_type
  let tb := normTT b.target_type
  ta = tb || ta = "other".data || tb = "other".data ||
    COMPATIBLE_TYPES.any (fun g => (g.map String.data).contains ta && (g.map String.data).contains tb)

/-- _event_dates_close of src/dedup.py with its default window of two days:
both dates parse and the absolute day difference is at most two. -/
def event_dates_close (a b : Rec) : Bool :=
  match parse_date a.date, parse_date b.date with
  | some da, some db => (da - db).natAbs ≤ 2
  | _, _ => false

/-- lexLe as a proposition, for the sorts. -/
def lexLeP (a b : List Char) : Prop := lexLe a b = true

instance : DecidableRel lexLeP := fun a b => inferInstanceAs (Decidable (lexLe a b = true))

/-- Length of the damage summary, the detail key of _merge_cluster. -/
def dlen (r : Rec) : ℕ := r.damage_summary.data.length

/-- The stable descending order cluster.sort uses on the damage length. -/
def dmgGe (a b : Rec) : Prop := dlen b ≤ dlen a

instance : DecidableRel dmgGe := fun a b => Nat.decLe (dlen b) (dlen a)

/-- The numeric confidence order of _merge_cluster, zero for unknown. -/
def confOrder (s : List Char) : ℕ :=
  if s = "high".data then 3 else if s = "medium".data then 2
  else if s = "low".data then 1 else 0

/-- Rank of a record: absent confidence defaults to low here. -/
def confRank (r : Rec) : ℕ := confOrder (pyLower (r.confidence.getD "low").data)

/-- The stable descending order for the coordinate donor scan. -/
def confGe (a b : Rec) : Prop := confRank b ≤ confRank a

instance : DecidableRel confGe := fun a b => Nat.decLe (confRank b) (confRank a)

/-- Python max with a key: the first element attaining the maximal key. -/
def pyMaxBy (key : Rec → ℕ) : List Rec → Rec → Rec
  | [], d => d
  | x :: xs, _ => xs.foldl (fun b y => if key b < key y then y else b) x

/-- split on the two-character separator comma space, str.split semantics:
left-to-right, non-overlapping. -/
def splitComma : List Char → List (List Char)
  | [] => [[]]
  | ',' :: ' ' :: rest => [] :: splitComma rest
  | c :: rest =>
    match splitComma rest with
    | [] => [[c]]
    | p :: ps => (c :: p) :: ps

/-- The stripped non-empty source channels of one record. -/
def chanTokens (r : Rec) : List (List Char) :=
  ((splitComma r.source_channel.data).map stripChars).filter (· ≠ [])

/-- Order-preserving first-occurrence deduplication (dict.fromkeys), with an
accumulator of the values already seen. -/
def dedupGo {α : Type} [DecidableEq α] (seen : List α) : List α → List α
  | [] => []
  | a :: as => if a ∈ seen then dedupGo seen as else a :: dedupGo (a :: seen) as

/-- Order-preserving first-occurrence deduplication (dict.fromkeys). -/
def dedupFirst {α : Type} [DecidableEq α] (l : List α) : List α := dedupGo [] l

/-- Maritime test on a record. -/
def recIsMar (r : Rec) : Bool := mIsTrue r.maritime

/-- The placeholder record, never produced by the pipeline; list accessors
need a default. -/
def dummyRec : Rec := {}

/-- The damage-sorted cluster: cluster.sort with the damage length key,
descending, stable. -/
def clSorted (c : List Rec) : List Rec := List.insertionSort dmgGe c

/-- The most detailed record, the base the merge copies. -/
def clBase (c : List Rec) : Rec := (clSorted c).headD dummyRec

/-- The sorted non-empty event dates of the cluster. -/
def clEventDates (c : List Rec) : List (List Char) :=
  List.insertionSort lexLeP (((clSorted c).map (fun r => r.date.data)).filter (· ≠ []))

/-- The sorted non-empty message dates of the cluster. -/
def clMsgDates (c : List Rec) : List (List Char) :=
  List.insertionSort lexLeP (((clSorted c).map (fun r => r.message_date.data)).filter (· ≠ []))

/-- The sorted deduplicated union of the source channels of the cluster. -/
def chanList (c : List Rec) : List (List Char) :=
  List.insertionSort lexLeP (dedupFirst ((clSorted c).flatMap chanTokens))

/-- The first member with the highest confidence rank. -/
def clBestConf (c : List Rec) : Rec := pyMaxBy confRank (clSorted c) dummyRec

/-- The first coordinate-bearing member of the confidence-sorted cluster. -/
def clCoordDonor (c : List Rec) : Option Rec :=
  (List.insertionSort confGe (clSorted c)).find? hasCoords

/-- The deduplicated non-empty message ids of the cluster, in order. -/
def clMsgIds (c : List Rec) : List (List Char) :=
  dedupFirst (((clSorted c).map (fun r => r.source_message_id.data)).filter (· ≠ []))

/-- _merge_cluster of src/dedup.py: sort the cluster by damage length
descending, copy the most detailed record, then resolve the date span, the
message-date span, the sorted deduplicated channel union, the highest
confidence, the coordinates of the highest-confidence coordinate holder, the
maritime disjunction and the joined message ids, and drop the message-date
working field. -/
def merge_cluster (c : List Rec) : Rec :=
  { clBase c with
    date := if (clEventDates c).isEmpty then (clBase c).date
      else String.mk ((clEventDates c).headD [])
    last_event_date := if (clEventDates c).isEmpty then (clBase c).last_event_date
      else some (String.mk ((clEventDates c).getLastD []))
    first_message_date := if (clMsgDates c).isEmpty then (clBase c).first_message_date
      else some (String.mk ((clMsgDates c).headD []))
    last_message_date := if (clMsgDates c).isEmpty then (clBase c).last_message_date
      else some (String.mk ((clMsgDates c).getLastD []))
    source_channel := String.mk (joinWith [',', ' '] (chanList c))
    confidence := some ((clBestConf c).confidence.getD "low")
    latitude := match clCoordDonor c with | some m => m.latitude | none => (clBase c).latitude
    longitude := match clCoordDonor c with | some m => m.longitude | none => (clBase c).longitude
    maritime := .mbool ((clSorted c).any recIsMar)
    source_message_id := String.mk (joinWith [';', ' '] (clMsgIds c))
    message_date := "" }

/-- The low-confidence filter of deduplicate: keep a record unless its
confidence, read with an empty default, lower-cases to low. -/
def keepRec (r : Rec) : Bool := pyLower (r.confidence.getD "").data ≠ "low".data

/-- Records surviving the confidence filter. -/
def lowFilter (l : List Rec) : List Rec := l.filter keepRec

/-- The event-date string order deduplicate sorts by. -/
def dateLe (a b : Rec) : Prop := lexLe a.date.data b.date.data = true

instance : DecidableRel dateLe := fun a b => inferInstanceAs (Decidable (lexLe a.date.data b.date.data = true))

/-- The date-sorted filtered batch the pair scan runs over. -/
def sortByDate (l : List Rec) : List Rec := List.insertionSort dateLe l

/-- The early-exit test of the inner scan: both dates parse and the later
record is more than two days after the earlier one. -/
def breakCond (a b : Rec) : Bool :=
  match parse_date a.date, parse_date b.date with
  | some da, some db => 2 < db - da
  | _, _ => false

/-- The decision the inner loop takes for a scanned pair: none for no edge,
some false for a strong-location union, some true for a weak union, testing
the strong match first exactly as the code does. -/
def pairKind (hav : ℚ → ℚ → ℚ → ℚ → ℚ) (a b : Rec) : Option Bool :=
  if ¬ event_dates_close a b then none
  else if ¬ same_target_type a b then none
  else if locations_match hav a b then some false
  else if locations_weak_match a b then some true
  else none

/-- The inner scan of deduplicate for anchor i over the listed candidate
indices, stopping at the break condition; returns the unions performed with
their weak flag. -/
def scanList (hav : ℚ → ℚ → ℚ → ℚ → ℚ) (l : List Rec) (i : ℕ) : List ℕ → List (ℕ × ℕ × Bool)
  | [] => []
  | j :: js =>
    if breakCond (l.getD i dummyRec) (l.getD j dummyRec) then []
    else
      match pairKind hav (l.getD i dummyRec) (l.getD j dummyRec) with
      | some w => (i, j, w) :: scanList hav l i js
      | none => scanList hav l i js

/-- The inner scan for anchor i runs over the indices after i. -/
def scanFrom (hav : ℚ → ℚ → ℚ → ℚ → ℚ) (l : List Rec) (i : ℕ) : List (ℕ × ℕ × Bool) :=
  scanList hav l i (List.range' (i + 1) (l.length - (i + 1)))

/-- All unions the double loop of deduplicate performs, in order.  The scan
reads only the records, never the union-find state, so listing the edges
first and folding the unions afterwards is the same algorithm. -/
def dedupEdges (hav : ℚ → ℚ → ℚ → ℚ → ℚ) (l : List Rec) : List (ℕ × ℕ × Bool) :=
  (List.range l.length).flatMap (fun i => scanFrom hav l i)

/-- One pointer step of the union-find parent array. -/
def ufStep (p : List ℕ) (x : ℕ) : ℕ := p.getD x x

/-- Root of x: iterate the parent pointer as many times as there are nodes.
Path compression only shortens the walk and never changes the root, so this
is the value the find of src/dedup.py returns. -/
def ufFind (p : List ℕ) (x : ℕ) : ℕ := (ufStep p)^[p.length] x

/-- union of src/dedup.py: attach the root of x under the root of y. -/
def ufUnion (p : List ℕ) (x y : ℕ) : List ℕ :=
  let px := ufFind p x
  let py := ufFind p y
  if px = py then p else p.set px py

/-- The parent array after all unions, starting from the identity. -/
def buildParent (n : ℕ) (es : List (ℕ × ℕ × Bool)) : List ℕ :=
  es.foldl (fun p e => ufUnion p e.1 e.2.1) (List.range n)

/-- Indices touched by some weak union, the weak_indices set. -/
def weakIdx (es : List (ℕ × ℕ × Bool)) : List ℕ :=
  es.foldl (fun s e => if e.2.2 then e.1 :: e.2.1 :: s else s) []

/-- The clusters of the filtered date-sorted batch in root first-seen order,
each with its weak flag: members grouped by union-find root, the flag set
when some member index was part of a weak union. -/
def clustersOf (hav : ℚ → ℚ → ℚ → ℚ → ℚ) (l : List Rec) : List (List Rec × Bool) :=
  let sl := sortByDate (lowFilter l)
  let es := dedupEdges hav sl
  let p := buildParent sl.length es
  let wk := weakIdx es
  (dedupFirst ((List.range sl.length).map (ufFind p))).map
    (fun r =>
      let idxs := (List.range sl.length).filter (fun i => ufFind p i = r)
      (idxs.map (fun i => sl.getD i dummyRec), idxs.any (fun i => wk.contains i)))

/-- The review annotation attached to weak multi-member clusters. -/
def noteText (k : ℕ) : String :=
  "Merged " ++ toString k ++ " rows by region only (no city/coordinates) " ++
    "— verify this is a single incident"

/-- Merge one cluster and annotate it when it is weak and has more than one
member. -/
def mergeStep (cw : List Rec × Bool) : Rec :=
  let m := merge_cluster cw.1
  if cw.2 && decide (1 < cw.1.length) then { m with dedup_note := some (noteText cw.1.length) }
  else m

/-- deduplicate of src/dedup.py: drop low confidence, sort by date, union
matching pairs inside the two-day window, merge every cluster, annotate weak
multi-member clusters, and sort the result by date. -/
def deduplicate (hav : ℚ → ℚ → ℚ → ℚ → ℚ) (l : List Rec) : List Rec :=
  if l = [] then [] else List.insertionSort dateLe ((clustersOf hav l).map mergeStep)

/-- A concrete distance function for witnesses: every pair of points is
reported 1000 km apart, so the coordinate branch never fires; the records in
the witnesses carry no coordinates, making the choice irrelevant. -/
def hav0 : ℚ → ℚ → ℚ → ℚ → ℚ := fun _ _ _ _ => 1000

/-- The closed target-type category set of the pipeline (the extraction
contract of src/filter_and_extract.py). -/
def FIXED_TARGET_TYPES : List String :=
  ["military_base", "airfield", "ammunition_depot", "fuel_depot", "oil_refinery",
   "power_infrastructure", "naval", "radar", "command_post", "transport",
   "industrial", "residential", "other"]

/-- _word_set of src/filter_and_extract.py: the set of whitespace tokens of
the lower-cased transliterated text, modelled as a first-occurrence
deduplicated list.  Tokens are kept whole and tokens of every length are
kept. -/
def word_set (s : String) : List (List Char) := dedupFirst (pyWords (translit (pyLower s.data)))

/-- _jaccard_similarity of src/filter_and_extract.py over deduplicated
lists: zero when either set is empty, else intersection size over union
size. -/
def jaccard_similarity (a b : List (List Char)) : ℚ :=
  if a = [] ∨ b = [] then 0
  else ((a.filter (· ∈ b)).length : ℚ) / ((dedupFirst (a ++ b)).length : ℚ)

/-- The similarity _cross_channel_dedup computes for a pair of texts. -/
def stage1_similarity (t1 t2 : String) : ℚ := jaccard_similarity (word_set t1) (word_set t2)

/-- Witness records for the direct-edge claim: same city, one day apart. -/
def recW1 : Rec := { date := "2024-02-01", city := "moscow", confidence := some "high" }

/-- Second witness record for the direct-edge claim. -/
def recW2 : Rec := { date := "2024-02-02", city := "moscow", confidence := some "high" }

/-- Field-resolution witness records with damage lengths ten, fifty and
thirty characters. -/
def recM1 : Rec :=
  { date := "2024-01-05"
    city := "kursk"
    damage_summary := "aaaaaaaaaa"
    message_date := "2024-01-05T10:00:00"
    confidence := some "medium"
    source_channel := "chA"
    source_message_id := "11"
    maritime := MVal.mbool false }

/-- Second field-resolution witness record, the most detailed one. -/
def recM2 : Rec :=
  { date := "2024-01-03"
    city := "kursk"
    damage_summary := "bbbbbbbbbbbbbbbbbbbbbbbbbbbbbbbbbbbbbbbbbbbbbbbbbb"
    message_date := "2024-01-06T10:00:00"
    confidence := some "high"
    source_channel := "chB"
    source_message_id := "22"
    latitude := some 51
    longitude := some 36
    maritime := MVal.mbool true }

/-- Third field-resolution witness record. -/
def recM3 : Rec :=
  { date := "2024-01-04"
    city := "kursk"
    damage_summary := "cccccccccccccccccccccccccccccc"
    message_date := "2024-01-04T10:00:00"
    confidence := some "medium"
    source_channel := "chA"
    source_message_id := "33"
    maritime := MVal.mbool false }

/-- The field-resolution policy of the canonical merged record, stated over
the cluster member list. -/
def c2MergeSpec (c : List Rec) : Prop :=
    ((∃ r ∈ c, r.date ≠ "") →
      ∃ rmin ∈ c, ∃ rmax ∈ c,
        (merge_cluster c).date = rmin.date ∧
        (merge_cluster c).last_event_date = some rmax.date ∧
        ∀ r ∈ c, r.date ≠ "" →
          lexLe rmin.date.data r.date.data = true ∧
          lexLe r.date.data rmax.date.data = true) ∧
    ((∃ r ∈ c, r.message_date ≠ "") →
      ∃ rmin ∈ c, ∃ rmax ∈ c,
        (merge_cluster c).first_message_date = some rmin.message_date ∧
        (merge_cluster c).last_message_date = some rmax.message_date ∧
        ∀ r ∈ c, r.message_date ≠ "" →
          lexLe rmin.message_date.data r.message_date.data = true ∧
          lexLe r.message_date.data rmax.message_date.data = true) ∧
    ((merge_cluster c).source_channel.data = joinWith [',', ' '] (chanList c) ∧
      List.Sorted lexLeP (chanList c) ∧ (chanList c).Nodup ∧
      ∀ t, t ∈ chanList c ↔ ∃ r ∈ c, t ∈ chanTokens r) ∧
    (∃ rb ∈ c, (merge_cluster c).confidence = some (rb.confidence.getD "low") ∧
      ∀ r ∈ c, confRank r ≤ confRank rb) ∧
    ((∃ r ∈ c, hasCoords r = true) →
      ∃ rc ∈ c, hasCoords rc = true ∧
        (merge_cluster c).latitude = rc.latitude ∧
        (merge_cluster c).longitude = rc.longitude ∧
        ∀ r ∈ c, hasCoords r = true → confRank r ≤ confRank rc) ∧
    ((merge_cluster c).maritime = MVal.mbool (c.any recIsMar) ∧
      (mIsTrue (merge_cluster c).maritime = true ↔ ∃ r ∈ c, recIsMar r = true)) ∧
    (∃ rb ∈ c,
      (merge_cluster c).damage_summary = rb.damage_summary ∧
      (merge_cluster c).city = rb.city ∧
      (merge_cluster c).region = rb.region ∧
      (merge_cluster c).facility_name = rb.facility_name ∧
      (merge_cluster c).original_text = rb.original_text ∧
      (merge_cluster c).target_type = rb.target_type ∧
      ∀ r ∈ c, dlen r ≤ dlen rb)

/-- x is a root of the parent array: its pointer is itself. -/
def isRootP (p : List ℕ) (x : ℕ) : Prop := ufStep p x = x

/-- Every find lands on a root: the forest invariant the unions maintain. -/
def Stable (p : List ℕ) : Prop := ∀ x, isRootP p (ufFind p x)

/-- In-range entries point in range. -/
def Bounded (p : List ℕ) : Prop := ∀ x, x < p.length → ufStep p x < p.length

/-- A pair of records matches directly when the pair loop, upon scanning it,
would union it: dates close, types compatible, strong or weak location
match. -/
def directMatch (hav : ℚ → ℚ → ℚ → ℚ → ℚ) (a b : Rec) : Bool := (pairKind hav a b).isSome

/-- Date-order compatibility of one pair of records: if both dates parse,
the lexicographic string order the sort uses implies the parsed day order.
Zero-padded ISO dates, the format of the data model, satisfy this for every
pair. -/
def dmOK (a b : Rec) : Bool :=
  match parse_date a.date, parse_date b.date with
  | some x, some y => !lexLe a.date.data b.date.data || decide (x ≤ y)
  | _, _ => true

/-- The transitive-closure clustering property of one triple of indices of
the date-sorted filtered batch: the three records land at one union-find
root and in one produced cluster. -/
def c3Spec (hav : ℚ → ℚ → ℚ → ℚ → ℚ) (l : List Rec) (iA iB iC : ℕ) : Prop :=
  (ufFind (buildParent (sortByDate (lowFilter l)).length
      (dedupEdges hav (sortByDate (lowFilter l)))) iA =
    ufFind (buildParent (sortByDate (lowFilter l)).length
      (dedupEdges hav (sortByDate (lowFilter l)))) iB ∧
   ufFind (buildParent (sortByDate (lowFilter l)).length
      (dedupEdges hav (sortByDate (lowFilter l)))) iB =
    ufFind (buildParent (sortByDate (lowFilter l)).length
      (dedupEdges hav (sortByDate (lowFilter l)))) iC) ∧
  ∃ cw ∈ clustersOf hav l,
    (sortByDate (lowFilter l)).getD iA dummyRec ∈ cw.1 ∧
    (sortByDate (lowFilter l)).getD iB dummyRec ∈ cw.1 ∧
    (sortByDate (lowFilter l)).getD iC dummyRec ∈ cw.1

/-- Chained-cluster witness record A: kursk, January first. -/
def recT1 : Rec := { date := "2024-01-01", city := "kursk", confidence := some "medium" }

/-- Chained-cluster witness record B: kursk, January third. -/
def recT2 : Rec := { date := "2024-01-03", city := "kursk", confidence := some "medium" }

/-- Chained-cluster witness record C: kursk, January fifth. -/
def recT3 : Rec := { date := "2024-01-05", city := "kursk", confidence := some "medium" }

/-- Mixed-evidence cluster record A: region-only with a facility name. -/
def recA4 : Rec :=
  { date := "2024-03-01"
    region := "rostov"
    facility_name := "alpha base"
    confidence := some "medium"
    source_message_id := "idA" }

/-- Mixed-evidence cluster record B: region-only, no facility. -/
def recB4 : Rec :=
  { date := "2024-03-01"
    region := "rostov"
    confidence := some "medium"
    source_message_id := "idB" }

/-- Mixed-evidence cluster record C: region-only, facility a substring of
the facility of record A, so the pair A and C matches strongly. -/
def recC4 : Rec :=
  { date := "2024-03-01"
    region := "rostov"
    facility_name := "alpha"
    confidence := some "medium"
    source_message_id := "idC" }

/-- Idempotence-failure record: no confidence field at all. -/
def rec8 : Rec := { date := "2024-01-05", city := "kursk", target_type := some "other" }

/-- Idempotence-failure merge pair, first record. -/
def recL1 : Rec := { date := "2024-01-01", city := "belgorod", confidence := some "medium" }

/-- Idempotence-failure merge pair, second record, one day later. -/
def recL2 : Rec := { date := "2024-01-02", city := "belgorod", confidence := some "medium" }

lemma lexLe_total (a b : List Char) : lexLe a b = true ∨ lexLe b a = true := by
  induction a generalizing b with
  | nil => left; rfl
  | cons x xs ih =>
    cases b with
    | nil => right; rfl
    | cons y ys =>
      by_cases h1 : x.toNat < y.toNat
      · left; simp [lexLe, h1]
      · by_cases h2 : y.toNat < x.toNat
        · right; simp [lexLe, h2]
        · rcases ih ys with h | h
          · left; simp [lexLe, h1, h2, h]
          · right; simp [lexLe, h1, h2, h]

lemma lexLe_trans (a b c : List Char) (hab : lexLe a b = true) (hbc : lexLe b c = true) :
    lexLe a c = true := by
  induction a generalizing b c with
  | nil => rfl
  | cons x xs ih =>
    cases b with
    | nil => simp [lexLe] at hab
    | cons y ys =>
      cases c with
      | nil => simp [lexLe] at hbc
      | cons z zs =>
        by_cases h1 : x.toNat < y.toNat <;> by_cases h2 : y.toNat < z.toNat <;>
          by_cases h3 : y.toNat < x.toNat <;> by_cases h4 : z.toNat < y.toNat <;>
            simp [lexLe, h1, h2, h3, h4] at hab hbc ⊢ <;>
              first
                | omega
                | exact Or.inr ⟨by omega, ih ys zs hab hbc⟩

instance : IsTotal (List Char) lexLeP := ⟨fun a b => lexLe_total a b⟩

instance : IsTrans (List Char) lexLeP := ⟨fun a b c => lexLe_trans a b c⟩

instance : IsTotal Rec dateLe := ⟨fun a b => lexLe_total a.date.data b.date.data⟩

instance : IsTrans Rec dateLe :=
  ⟨fun a b c => lexLe_trans a.date.data b.date.data c.date.data⟩

instance : IsTotal Rec dmgGe := ⟨fun a b => Nat.le_total (dlen b) (dlen a)⟩

instance : IsTrans Rec dmgGe := ⟨fun _ _ _ hab hbc => le_trans hbc hab⟩

instance : IsTotal Rec confGe := ⟨fun a b => Nat.le_total (confRank b) (confRank a)⟩

instance : IsTrans Rec confGe := ⟨fun _ _ _ hab hbc => le_trans hbc hab⟩

/-! The development above is the embedding; everything below settles the
claims about it. -/

/-- C5 counterexample: the city-substring branch of the strong location
match has no minimum-length guard.  The pair below has normalized city names
aba and abakan; the shorter is a three-letter fragment of an unrelated
longer name and they are not equal, yet the records location-match through
the substring rule (they carry no coordinates, so the distance function
cannot be the reason, and the five-character prefix rule cannot fire for a
three-letter name). -/
theorem c5_counterexample :
    locations_match hav0 { city := "aba" } { city := "abakan" } = true ∧
    (pyNormalize "aba").length = 3 ∧
    pyNormalize "aba" ≠ pyNormalize "abakan" ∧
    hasCoords { city := "aba" } = false := by decide

/-- C5 amended: for every distance function and every pair of records whose
normalized city names are both non-empty with one a contiguous substring of
the other, the strong location match succeeds, with no requirement on the
length of the shorter name. -/
theorem c5_amended (hav : ℚ → ℚ → ℚ → ℚ → ℚ) (a b : Rec)
    (h1 : pyNormalize a.city ≠ []) (h2 : pyNormalize b.city ≠ [])
    (h3 : infixB (pyNormalize a.city) (pyNormalize b.city) = true ∨
          infixB (pyNormalize b.city) (pyNormalize a.city) = true) :
    locations_match hav a b = true := by
  unfold locations_match
  split
  · rfl
  · have hcm : cityMatch a b = true := by
      simp only [cityMatch, Bool.and_eq_true, Bool.or_eq_true, decide_eq_true_eq, ne_eq]
      exact ⟨⟨h1, h2⟩, Or.inl (h3.elim (fun h => Or.inl (Or.inr h)) Or.inr)⟩
    rw [if_pos hcm]

/-- C5 amended witness at the counterexample pair. -/
theorem c5_amended_witness :
    (pyNormalize ("aba" : String) ≠ [] ∧ pyNormalize ("abakan" : String) ≠ [] ∧
      (infixB (pyNormalize ("aba" : String)) (pyNormalize ("abakan" : String)) = true ∨
        infixB (pyNormalize ("abakan" : String)) (pyNormalize ("aba" : String)) = true)) ∧
    locations_match hav0 { city := "aba" } { city := "abakan" } = true :=
  ⟨⟨by decide, by decide, Or.inl (by decide)⟩,
    c5_amended hav0 { city := "aba" } { city := "abakan" } (by decide) (by decide)
      (Or.inl (by decide))⟩

/-- C6 counterexample: an unrecognized target-type string outside the fixed
category set is not treated as the wildcard: warehouse is not compatible
with airfield, although the claim says compatibility would hold regardless
of the other category. -/
theorem c6_counterexample :
    (("warehouse" : String) ∉ FIXED_TARGET_TYPES) ∧
    same_target_type { target_type := some "warehouse" } { target_type := some "airfield" } = false := by
  decide

/-- C6 amended: the wildcard treatment applies to an absent, null or empty
target-type field, which normalizes to the category other; a non-empty
string is kept as its lower-cased self, so an unrecognized value is
compatible exactly with itself, with the wildcard, and with nothing else:
compatibility holds precisely on equal normalized categories, a wildcard on
either side, or a shared fixed synonym group. -/
theorem c6_amended (a b : Rec) :
    (normTT none = "other".data ∧ normTT (some "") = "other".data) ∧
    (same_target_type a b = true ↔
      normTT a.target_type = normTT b.target_type ∨
      normTT a.target_type = "other".data ∨ normTT b.target_type = "other".data ∨
      ∃ g ∈ COMPATIBLE_TYPES, normTT a.target_type ∈ g.map String.data ∧
        normTT b.target_type ∈ g.map String.data) := by
  refine ⟨⟨by decide, by decide⟩, ?_⟩
  simp [same_target_type, List.any_eq_true, or_assoc]

lemma dedupGo_mem {α : Type} [DecidableEq α] (seen : List α) (l : List α) (x : α) :
    x ∈ dedupGo seen l ↔ x ∈ l ∧ x ∉ seen := by
  induction l generalizing seen with
  | nil => simp [dedupGo]
  | cons a as ih =>
    by_cases ha : a ∈ seen
    · simp only [dedupGo, if_pos ha, ih, List.mem_cons]
      constructor
      · rintro ⟨hx, hs⟩; exact ⟨Or.inr hx, hs⟩
      · rintro ⟨hx | hx, hs⟩
        · exact absurd (hx ▸ ha) hs
        · exact ⟨hx, hs⟩
    · simp only [dedupGo, if_neg ha, List.mem_cons, ih]
      constructor
      · rintro (rfl | ⟨hx, hs⟩)
        · exact ⟨Or.inl rfl, ha⟩
        · exact ⟨Or.inr hx, fun hc => hs (Or.inr hc)⟩
      · rintro ⟨rfl | hx, hs⟩
        · exact Or.inl rfl
        · rcases eq_or_ne x a with rfl | hne
          · exact Or.inl rfl
          · refine Or.inr ⟨hx, fun hc => ?_⟩
            rcases hc with h | h
            · exact hne h
            · exact hs h

lemma dedupFirst_mem {α : Type} [DecidableEq α] (l : List α) (x : α) :
    x ∈ dedupFirst l ↔ x ∈ l := by
  simp [dedupFirst, dedupGo_mem]

lemma dedupGo_nodup {α : Type} [DecidableEq α] (seen : List α) (l : List α) :
    (dedupGo seen l).Nodup := by
  induction l generalizing seen with
  | nil => simp [dedupGo]
  | cons a as ih =>
    by_cases ha : a ∈ seen
    · simpa [dedupGo, if_pos ha] using ih seen
    · simp only [dedupGo, if_neg ha, List.nodup_cons]
      refine ⟨fun hc => ?_, ih _⟩
      exact ((dedupGo_mem _ _ _).mp hc).2 (List.mem_cons_self _ _)

lemma dedupFirst_nodup {α : Type} [DecidableEq α] (l : List α) : (dedupFirst l).Nodup :=
  dedupGo_nodup [] l

/-- C7 counterexample: stage-1 tokens are neither truncated to a short
prefix nor filtered by a minimum length.  A single-character token survives
and makes two one-letter texts fully similar, which any genuine minimum
token length of at least two would have sent to zero; and a sixteen-letter
token is kept whole, which truncation to any short prefix would have cut. -/
theorem c7_counterexample :
    stage1_similarity "a" "a" = 1 ∧
    "a".data ∈ word_set "a" ∧
    word_set "zz abcdefghijklmnop" = ["zz".data, "abcdefghijklmnop".data] := by
  refine ⟨?_, by decide, by decide⟩
  show jaccard_similarity (word_set "a") (word_set "a") = 1
  have : word_set "a" = [['a']] := by decide
  rw [this]
  norm_num [jaccard_similarity, dedupFirst, dedupGo]

/-- C7 amended: the stage-1 similarity of two texts is the Jaccard ratio of
their plain token sets: the tokens are the whole whitespace-separated words
of the lower-cased transliterated text, with no prefix truncation and no
minimum token length, the ratio is intersection size over union size, and it
is zero when either token set is empty. -/
theorem c7_amended (t1 t2 : String) :
    (stage1_similarity t1 t2 =
      if word_set t1 = [] ∨ word_set t2 = [] then 0
      else (((word_set t1).filter (· ∈ word_set t2)).length : ℚ) /
        ((dedupFirst (word_set t1 ++ word_set t2)).length : ℚ)) ∧
    (word_set t1).Nodup ∧
    (∀ w, w ∈ word_set t1 ↔ w ∈ pyWords (translit (pyLower t1.data))) := by
  exact ⟨rfl, dedupFirst_nodup _, fun w => dedupFirst_mem _ w⟩

/-- C10: a record with an absent, null or zero latitude or longitude has no
usable coordinates: the coordinate-distance branch of the strong location
match is false for every distance function in either argument position, and
the coordinate donor scan of the merger, which only ever returns a record
with usable coordinates, never returns it. -/
theorem c10_missing_coordinates (hav : ℚ → ℚ → ℚ → ℚ → ℚ) (a b : Rec) (c : List Rec)
    (h : pyTruthy a.latitude = false ∨ pyTruthy a.longitude = false) :
    hasCoords a = false ∧
    coordClose hav a b = false ∧
    coordClose hav b a = false ∧
    (List.insertionSort confGe c).find? hasCoords ≠ some a ∧
    (∀ m, (List.insertionSort confGe c).find? hasCoords = some m → hasCoords m = true) := by
  have hna : hasCoords a = false := by
    unfold hasCoords
    rcases h with h | h <;> simp [h]
  have hfind : ∀ m, (List.insertionSort confGe c).find? hasCoords = some m →
      hasCoords m = true := fun m hm => List.find?_some hm
  refine ⟨hna, ?_, ?_, ?_, hfind⟩
  · unfold coordClose
    simp [hna]
  · unfold coordClose
    simp [hna]
  · intro hc
    rw [hfind a hc] at hna
    exact absurd hna (by decide)

/-- C10 witness: a record whose latitude is literally zero. -/
theorem c10_witness :
    (pyTruthy (some (0 : ℚ)) = false ∨ pyTruthy (some (5 : ℚ)) = false) ∧
    (hasCoords { latitude := some 0, longitude := some 5 } = false ∧
      coordClose hav0 { latitude := some 0, longitude := some 5 } dummyRec = false ∧
      coordClose hav0 dummyRec { latitude := some 0, longitude := some 5 } = false ∧
      (List.insertionSort confGe [{ latitude := some 0, longitude := some 5 }]).find? hasCoords ≠
        some { latitude := some 0, longitude := some 5 } ∧
      (∀ m, (List.insertionSort confGe [{ latitude := some 0, longitude := some 5 }]).find? hasCoords =
          some m → hasCoords m = true)) :=
  ⟨Or.inl (by decide),
    c10_missing_coordinates hav0 { latitude := some 0, longitude := some 5 } dummyRec
      [{ latitude := some 0, longitude := some 5 }] (Or.inl (by decide))⟩

lemma scanList_mem (hav : ℚ → ℚ → ℚ → ℚ → ℚ) (l : List Rec) (i : ℕ) (js : List ℕ)
    (a b : ℕ) (w : Bool) (h : (a, b, w) ∈ scanList hav l i js) :
    a = i ∧ b ∈ js ∧ pairKind hav (l.getD i dummyRec) (l.getD b dummyRec) = some w := by
  induction js with
  | nil => simp [scanList] at h
  | cons j rest ih =>
    rw [scanList] at h
    split at h
    · simp at h
    · rename_i hbr
      cases hk : pairKind hav (l.getD i dummyRec) (l.getD j dummyRec) with
      | none =>
        rw [hk] at h
        rcases ih h with ⟨h1, h2, h3⟩
        exact ⟨h1, List.mem_cons_of_mem _ h2, h3⟩
      | some w' =>
        rw [hk] at h
        rcases List.mem_cons.mp h with he | ht
        · obtain ⟨rfl, rfl, rfl⟩ := Prod.mk.injEq .. ▸ (by
            injection he with h1 h2
            injection h2 with h2 h3
            exact ⟨h1, h2, h3⟩ : a = i ∧ b = j ∧ w = w')
          exact ⟨rfl, List.mem_cons_self _ _, hk⟩
        · rcases ih ht with ⟨h1, h2, h3⟩
          exact ⟨h1, List.mem_cons_of_mem _ h2, h3⟩

lemma pairKind_some (hav : ℚ → ℚ → ℚ → ℚ → ℚ) (a b : Rec) (w : Bool)
    (h : pairKind hav a b = some w) :
    event_dates_close a b = true ∧ same_target_type a b = true ∧
      (locations_match hav a b = true ∨ locations_weak_match a b = true) := by
  unfold pairKind at h
  split_ifs at h with h1 h2 h3 h4
  · exact ⟨h1, h2, Or.inl h3⟩
  · exact ⟨h1, h2, Or.inr h4⟩

/-- C1: every direct pairwise edge the clusterer creates, strong or weak,
joins an ordered pair inside the batch whose event dates both parse and lie
within two days of each other, whose target types are compatible, and whose
locations match strongly or weakly; a pair failing any of these conditions
is never joined directly, for any distance function. -/
theorem c1_direct_edge_conditions (hav : ℚ → ℚ → ℚ → ℚ → ℚ) (l : List Rec) (i j : ℕ)
    (w : Bool) (h : (i, j, w) ∈ dedupEdges hav l) :
    i < j ∧ j < l.length ∧
    event_dates_close (l.getD i dummyRec) (l.getD j dummyRec) = true ∧
    same_target_type (l.getD i dummyRec) (l.getD j dummyRec) = true ∧
    (locations_match hav (l.getD i dummyRec) (l.getD j dummyRec) = true ∨
      locations_weak_match (l.getD i dummyRec) (l.getD j dummyRec) = true) := by
  unfold dedupEdges at h
  rcases List.mem_flatMap.mp h with ⟨i', hi', hmem⟩
  unfold scanFrom at hmem
  rcases scanList_mem _ _ _ _ _ _ _ hmem with ⟨rfl, hj, hk⟩
  rcases List.mem_range'_1.mp hj with ⟨hj1, hj2⟩
  have hc := pairKind_some _ _ _ _ hk
  exact ⟨by omega, by omega, hc.1, hc.2.1, hc.2.2⟩

/-- C1 witness: two same-city records a day apart produce exactly the strong
edge between indices zero and one, and the theorem yields its conditions. -/
theorem c1_witness :
    ((0, 1, false) ∈ dedupEdges hav0 [recW1, recW2]) ∧
    (0 < 1 ∧ 1 < ([recW1, recW2] : List Rec).length ∧
      event_dates_close (([recW1, recW2] : List Rec).getD 0 dummyRec)
        (([recW1, recW2] : List Rec).getD 1 dummyRec) = true ∧
      same_target_type (([recW1, recW2] : List Rec).getD 0 dummyRec)
        (([recW1, recW2] : List Rec).getD 1 dummyRec) = true ∧
      (locations_match hav0 (([recW1, recW2] : List Rec).getD 0 dummyRec)
          (([recW1, recW2] : List Rec).getD 1 dummyRec) = true ∨
        locations_weak_match (([recW1, recW2] : List Rec).getD 0 dummyRec)
          (([recW1, recW2] : List Rec).getD 1 dummyRec) = true)) :=
  ⟨by decide, c1_direct_edge_conditions hav0 [recW1, recW2] 0 1 false (by decide)⟩

lemma getD_range_map (l : List Rec) :
    (List.range l.length).map (fun i => l.getD i dummyRec) = l := by
  apply List.ext_getElem
  · simp
  · intro i h1 h2
    simp only [List.getElem_map, List.getElem_range]
    exact List.getD_eq_getElem l dummyRec h2

lemma join_filter_perm {α β : Type} [DecidableEq β] (f : α → β) :
    ∀ (vs : List β) (xs : List α), vs.Nodup → (∀ x ∈ xs, f x ∈ vs) →
      List.Perm ((vs.map (fun v => xs.filter (fun x => f x = v))).flatten) xs := by
  intro vs
  induction vs with
  | nil =>
    intro xs _ hcov
    have hx : xs = [] := List.eq_nil_iff_forall_not_mem.mpr (fun x hx => by simpa using hcov x hx)
    simp [hx]
  | cons v vs ih =>
    intro xs hnd hcov
    simp only [List.map_cons, List.flatten_cons]
    have hvnotin : v ∉ vs := (List.nodup_cons.mp hnd).1
    have hrest : vs.map (fun v' => xs.filter (fun x => f x = v')) =
        vs.map (fun v' => (xs.filter (fun x => ¬ f x = v)).filter (fun x => f x = v')) := by
      apply List.map_congr_left
      intro v' hv'
      rw [List.filter_filter]
      apply List.filter_congr
      intro x _
      have hvv : v' ≠ v := fun hc => hvnotin (hc ▸ hv')
      by_cases hfx : f x = v'
      · simp [hfx, hvv]
      · simp [hfx]
    rw [hrest]
    have ihp := ih (xs.filter (fun x => ¬ f x = v)) (List.nodup_cons.mp hnd).2
      (fun x hx => by
        rcases List.mem_filter.mp hx with ⟨hx1, hx2⟩
        rcases List.mem_cons.mp (hcov x hx1) with h | h
        · exact absurd h (by simpa using hx2)
        · exact h)
    refine List.Perm.trans (ihp.append_left _) ?_
    simpa using List.filter_append_perm (fun x => decide (f x = v)) xs

/-- C9: the pre-clustering filter removes exactly the records whose
confidence field, read with an empty default, lower-cases to the string low;
records with absent, empty or unrecognized confidence are kept.  The
clusters together contain exactly the surviving records: the concatenation
of all cluster member lists is a permutation of the filtered batch. -/
theorem c9_low_confidence_filter (hav : ℚ → ℚ → ℚ → ℚ → ℚ) (l : List Rec) (r : Rec) :
    (r ∈ lowFilter l ↔ r ∈ l ∧ pyLower (r.confidence.getD "").data ≠ "low".data) ∧
    List.Perm ((clustersOf hav l).map Prod.fst).flatten (lowFilter l) := by
  constructor
  · simp [lowFilter, keepRec, List.mem_filter]
  · set sl := sortByDate (lowFilter l) with hsl
    set p := buildParent sl.length (dedupEdges hav sl) with hp
    have hperm := join_filter_perm (ufFind p)
      (dedupFirst ((List.range sl.length).map (ufFind p)))
      (List.range sl.length)
      (dedupFirst_nodup _)
      (fun i hi => (dedupFirst_mem _ _).mpr (List.mem_map.mpr ⟨i, hi, rfl⟩))
    have hmap := hperm.map (fun i => sl.getD i dummyRec)
    rw [getD_range_map] at hmap
    have heq : ((clustersOf hav l).map Prod.fst).flatten =
        ((dedupFirst ((List.range sl.length).map (ufFind p))).map
          (fun v => (List.range sl.length).filter (fun i => ufFind p i = v))).flatten.map
            (fun i => sl.getD i dummyRec) := by
      simp only [clustersOf, ← hsl, ← hp, List.map_map, List.map_flatten]
      rfl
    rw [heq]
    exact List.Perm.trans hmap (List.perm_insertionSort dateLe (lowFilter l))

lemma sorted_headD {α : Type} {R : α → α → Prop} (d : α) :
    ∀ (l : List α), List.Sorted R l → ∀ x ∈ l, x = l.headD d ∨ R (l.headD d) x := by
  intro l h x hx
  cases l with
  | nil => exact absurd hx (List.not_mem_nil x)
  | cons a t =>
    rcases List.mem_cons.mp hx with rfl | hx
    · exact Or.inl rfl
    · exact Or.inr (List.rel_of_sorted_cons h x hx)

lemma getLastD_mem {α : Type} : ∀ (l : List α) (d : α), l ≠ [] → l.getLastD d ∈ l
  | [], _, h => absurd rfl h
  | [a], d, _ => by simp [List.getLastD]
  | a :: b :: t, _, _ => by
    rw [List.getLastD_cons]
    exact List.mem_cons_of_mem a (getLastD_mem (b :: t) a (by simp))

lemma sorted_getLastD {α : Type} {R : α → α → Prop} :
    ∀ (l : List α) (d : α), List.Sorted R l → ∀ x ∈ l, x = l.getLastD d ∨ R x (l.getLastD d)
  | [], _, _, x, hx => absurd hx (List.not_mem_nil x)
  | [a], d, _, x, hx => by
    rcases List.mem_cons.mp hx with rfl | hx
    · exact Or.inl (by simp [List.getLastD])
    · exact absurd hx (List.not_mem_nil x)
  | a :: b :: t, d, h, x, hx => by
    rw [List.getLastD_cons]
    rcases List.mem_cons.mp hx with rfl | hx
    · exact Or.inr (List.rel_of_sorted_cons h _ (getLastD_mem (b :: t) x (by simp)))
    · exact sorted_getLastD (b :: t) a (List.Sorted.of_cons h) x hx

lemma foldl_max_spec (key : Rec → ℕ) :
    ∀ (xs : List Rec) (acc : Rec),
      (xs.foldl (fun b y => if key b < key y then y else b) acc = acc ∨
        xs.foldl (fun b y => if key b < key y then y else b) acc ∈ xs) ∧
      key acc ≤ key (xs.foldl (fun b y => if key b < key y then y else b) acc) ∧
      ∀ y ∈ xs, key y ≤ key (xs.foldl (fun b y => if key b < key y then y else b) acc) := by
  intro xs
  induction xs with
  | nil => exact fun acc => ⟨Or.inl rfl, le_refl _, by simp⟩
  | cons y ys ih =>
    intro acc
    simp only [List.foldl_cons]
    rcases ih (if key acc < key y then y else acc) with ⟨hmem, hacc, hall⟩
    have hstep : key acc ≤ key (if key acc < key y then y else acc) ∧
        key y ≤ key (if key acc < key y then y else acc) := by
      by_cases h : key acc < key y <;> simp [h] <;> omega
    refine ⟨?_, le_trans hstep.1 hacc, ?_⟩
    · rcases hmem with h | h
      · rw [h]
        by_cases hcmp : key acc < key y
        · simp [hcmp]
        · simp [hcmp]
      · exact Or.inr (List.mem_cons_of_mem _ h)
    · intro z hz
      rcases List.mem_cons.mp hz with rfl | hz
      · exact le_trans hstep.2 hacc
      · exact hall z hz

lemma pyMaxBy_spec (key : Rec → ℕ) (c : List Rec) (d : Rec) (hc : c ≠ []) :
    pyMaxBy key c d ∈ c ∧ ∀ y ∈ c, key y ≤ key (pyMaxBy key c d) := by
  cases c with
  | nil => exact absurd rfl hc
  | cons x xs =>
    rcases foldl_max_spec key xs x with ⟨hmem, hacc, hall⟩
    have hre : pyMaxBy key (x :: xs) d =
        List.foldl (fun b y => if key b < key y then y else b) x xs := rfl
    rw [hre]
    constructor
    · rcases hmem with h | h
      · rw [h]; exact List.mem_cons_self _ _
      · exact List.mem_cons_of_mem _ h
    · intro y hy
      rcases List.mem_cons.mp hy with rfl | hy
      · exact hacc
      · exact hall y hy

lemma find?_sorted_spec : ∀ (c : List Rec) (m : Rec),
    List.Sorted confGe c → c.find? hasCoords = some m →
      m ∈ c ∧ hasCoords m = true ∧ ∀ y ∈ c, hasCoords y = true → confRank y ≤ confRank m := by
  intro c
  induction c with
  | nil => intro m _ hf; simp [List.find?] at hf
  | cons a t ih =>
    intro m hs hf
    by_cases hp : hasCoords a = true
    · rw [List.find?_cons_of_pos _ hp] at hf
      injection hf with hf
      subst hf
      refine ⟨List.mem_cons_self _ _, hp, ?_⟩
      intro y hy _
      rcases List.mem_cons.mp hy with rfl | hy
      · exact le_refl _
      · exact List.rel_of_sorted_cons hs y hy
    · rw [List.find?_cons_of_neg _ (by simpa using hp)] at hf
      rcases ih m (List.Sorted.of_cons hs) hf with ⟨h1, h2, h3⟩
      refine ⟨List.mem_cons_of_mem _ h1, h2, ?_⟩
      intro y hy hcy
      rcases List.mem_cons.mp hy with rfl | hy
      · exact absurd hcy hp
      · exact h3 y hy hcy

lemma lexLe_refl (l : List Char) : lexLe l l = true := by
  induction l with
  | nil => rfl
  | cons a as ih => simp [lexLe, ih]

lemma str_mk_data (s : String) : String.mk s.data = s := rfl

lemma str_ne_empty_iff (s : String) : s ≠ "" ↔ s.data ≠ [] := by
  cases s with
  | mk d => simp [String.ext_iff]

lemma headD_mem {α : Type} (l : List α) (d : α) (h : l ≠ []) : l.headD d ∈ l := by
  cases l with
  | nil => exact absurd rfl h
  | cons a t => exact List.mem_cons_self a t

lemma clSorted_perm (c : List Rec) : List.Perm (clSorted c) c := List.perm_insertionSort dmgGe c

lemma clSorted_ne (c : List Rec) (hc : c ≠ []) : clSorted c ≠ [] := by
  intro h
  apply hc
  have := (clSorted_perm c).length_eq
  rw [h] at this
  exact List.length_eq_zero.mp this.symm

lemma sorted_field_span (f : Rec → String) (c : List Rec) (hd : ∃ r ∈ c, f r ≠ "") :
    ∃ a t,
      List.insertionSort lexLeP (((clSorted c).map (fun r => (f r).data)).filter (· ≠ [])) =
        a :: t ∧
      (∃ rmin ∈ c, (f rmin).data = a) ∧
      (∃ rmax ∈ c, (f rmax).data = (a :: t).getLastD []) ∧
      (∀ r ∈ c, f r ≠ "" →
        lexLe a (f r).data = true ∧ lexLe (f r).data ((a :: t).getLastD []) = true) := by
  set base := ((clSorted c).map (fun r => (f r).data)).filter (· ≠ []) with hbase
  set srt := List.insertionSort lexLeP base with hsrt
  have hmem : ∀ x, x ∈ srt ↔ (∃ r ∈ c, (f r).data = x) ∧ x ≠ [] := by
    intro x
    rw [hsrt, (List.perm_insertionSort lexLeP base).mem_iff, hbase, List.mem_filter]
    simp only [List.mem_map, decide_not]
    constructor
    · rintro ⟨⟨r, hr, rfl⟩, hne⟩
      exact ⟨⟨r, (clSorted_perm c).mem_iff.mp hr, rfl⟩, by simpa using hne⟩
    · rintro ⟨⟨r, hr, rfl⟩, hne⟩
      exact ⟨⟨r, (clSorted_perm c).mem_iff.mpr hr, rfl⟩, by simpa using hne⟩
  have hsorted : List.Sorted lexLeP srt := List.sorted_insertionSort lexLeP base
  obtain ⟨r0, hr0, hne0⟩ := hd
  have hr0m : (f r0).data ∈ srt :=
    (hmem _).mpr ⟨⟨r0, hr0, rfl⟩, (str_ne_empty_iff _).mp hne0⟩
  obtain ⟨a, t, hE⟩ : ∃ a t, srt = a :: t := by
    cases h : srt with
    | nil => rw [h] at hr0m; exact absurd hr0m (List.not_mem_nil _)
    | cons a t => exact ⟨a, t, rfl⟩
  have hamem : a ∈ srt := hE ▸ List.mem_cons_self a t
  have hlmem : (a :: t).getLastD [] ∈ srt := hE ▸ getLastD_mem (a :: t) [] (by simp)
  obtain ⟨⟨rmin, hrmin, hrmineq⟩, _⟩ := (hmem a).mp hamem
  obtain ⟨⟨rmax, hrmax, hrmaxeq⟩, _⟩ := (hmem _).mp hlmem
  refine ⟨a, t, hE, ⟨rmin, hrmin, hrmineq⟩, ⟨rmax, hrmax, hrmaxeq⟩, ?_⟩
  intro r hr hne
  have hrm : (f r).data ∈ srt := (hmem _).mpr ⟨⟨r, hr, rfl⟩, (str_ne_empty_iff _).mp hne⟩
  constructor
  · rcases sorted_headD [] srt hsorted _ hrm with h | h
    · rw [hE] at h; simp only [List.headD_cons] at h; rw [← h]; exact lexLe_refl _
    · rw [hE] at h; simp only [List.headD_cons] at h; exact h
  · rcases sorted_getLastD srt [] hsorted _ hrm with h | h
    · rw [hE] at h; rw [← h]; exact lexLe_refl _
    · rw [hE] at h; exact h

lemma perm_any_eq {l1 l2 : List Rec} (h : List.Perm l1 l2) (p : Rec → Bool) :
    l1.any p = l2.any p := by
  cases h1 : l1.any p <;> cases h2 : l2.any p
  · rfl
  · rcases List.any_eq_true.mp h2 with ⟨x, hx, hp⟩
    rw [List.any_eq_false] at h1
    exact absurd hp (by simpa using h1 x (h.mem_iff.mpr hx))
  · rcases List.any_eq_true.mp h1 with ⟨x, hx, hp⟩
    rw [List.any_eq_false] at h2
    exact absurd hp (by simpa using h2 x (h.mem_iff.mp hx))
  · rfl

/-- C2: the merged record of a non-empty cluster takes the earliest
non-empty event date as its date and the latest as its last-seen date,
the earliest and latest message timestamps, the sorted deduplicated union
of the members' source channels, the confidence string of a member of
maximal confidence rank, the coordinates of a coordinate-bearing member of
maximal confidence rank among coordinate bearers, a maritime flag that is
the disjunction of the members' flags, and its descriptive fields from a
member of maximal damage-summary length. -/
theorem c2_merge_policy (c : List Rec) (hc : c ≠ []) : c2MergeSpec c := by
  unfold c2MergeSpec
  refine ⟨?_, ?_, ?_, ?_, ?_, ?_, ?_⟩
  · -- event dates
    intro hd
    obtain ⟨a, t, hE, ⟨rmin, hrmin, hmineq⟩, ⟨rmax, hrmax, hmaxeq⟩, hbounds⟩ :=
      sorted_field_span (fun r => r.date) c hd
    have hEne : clEventDates c = a :: t := hE
    refine ⟨rmin, hrmin, rmax, hrmax, ?_, ?_, ?_⟩
    · show (if (clEventDates c).isEmpty then (clBase c).date
        else String.mk ((clEventDates c).headD [])) = rmin.date
      rw [hEne, ← hmineq]
      simp [str_mk_data]
    · show (if (clEventDates c).isEmpty then (clBase c).last_event_date
        else some (String.mk ((clEventDates c).getLastD []))) = some rmax.date
      rw [hEne, ← hmaxeq]
      simp [str_mk_data]
    · intro r hr hne
      obtain ⟨h1, h2⟩ := hbounds r hr hne
      rw [← hmineq] at h1
      rw [← hmaxeq] at h2
      exact ⟨h1, h2⟩
  · -- message dates
    intro hd
    obtain ⟨a, t, hE, ⟨rmin, hrmin, hmineq⟩, ⟨rmax, hrmax, hmaxeq⟩, hbounds⟩ :=
      sorted_field_span (fun r => r.message_date) c hd
    have hEne : clMsgDates c = a :: t := hE
    refine ⟨rmin, hrmin, rmax, hrmax, ?_, ?_, ?_⟩
    · show (if (clMsgDates c).isEmpty then (clBase c).first_message_date
        else some (String.mk ((clMsgDates c).headD []))) = some rmin.message_date
      rw [hEne, ← hmineq]
      simp [str_mk_data]
    · show (if (clMsgDates c).isEmpty then (clBase c).last_message_date
        else some (String.mk ((clMsgDates c).getLastD []))) = some rmax.message_date
      rw [hEne, ← hmaxeq]
      simp [str_mk_data]
    · intro r hr hne
      obtain ⟨h1, h2⟩ := hbounds r hr hne
      rw [← hmineq] at h1
      rw [← hmaxeq] at h2
      exact ⟨h1, h2⟩
  · -- channels
    refine ⟨rfl, List.sorted_insertionSort lexLeP _, ?_, ?_⟩
    · exact (List.perm_insertionSort lexLeP _).nodup_iff.mpr (dedupFirst_nodup _)
    · intro tk
      rw [chanList, (List.perm_insertionSort lexLeP _).mem_iff, dedupFirst_mem,
        List.mem_flatMap]
      constructor
      · rintro ⟨r, hr, htk⟩
        exact ⟨r, (clSorted_perm c).mem_iff.mp hr, htk⟩
      · rintro ⟨r, hr, htk⟩
        exact ⟨r, (clSorted_perm c).mem_iff.mpr hr, htk⟩
  · -- confidence
    obtain ⟨hmem, hmax⟩ := pyMaxBy_spec confRank (clSorted c) dummyRec (clSorted_ne c hc)
    refine ⟨clBestConf c, (clSorted_perm c).mem_iff.mp hmem, rfl, ?_⟩
    intro r hr
    exact hmax r ((clSorted_perm c).mem_iff.mpr hr)
  · -- coordinates
    intro hd
    obtain ⟨r0, hr0, hc0⟩ := hd
    have hsome : (clCoordDonor c).isSome := by
      rw [clCoordDonor]
      refine List.find?_isSome.mpr ⟨r0, ?_, hc0⟩
      rw [(List.perm_insertionSort confGe _).mem_iff, (clSorted_perm c).mem_iff]
      exact hr0
    obtain ⟨m, hm⟩ := Option.isSome_iff_exists.mp hsome
    obtain ⟨hmmem, hmco, hmmax⟩ := find?_sorted_spec _ m
      (List.sorted_insertionSort confGe (clSorted c)) hm
    have hmc : m ∈ c := by
      rw [← (clSorted_perm c).mem_iff, ← (List.perm_insertionSort confGe (clSorted c)).mem_iff]
      exact hmmem
    refine ⟨m, hmc, hmco, ?_, ?_, ?_⟩
    · show (match clCoordDonor c with
        | some m => m.latitude | none => (clBase c).latitude) = m.latitude
      rw [hm]
    · show (match clCoordDonor c with
        | some m => m.longitude | none => (clBase c).longitude) = m.longitude
      rw [hm]
    · intro r hr hcr
      refine hmmax r ?_ hcr
      rw [(List.perm_insertionSort confGe (clSorted c)).mem_iff, (clSorted_perm c).mem_iff]
      exact hr
  · -- maritime
    have hany : (clSorted c).any recIsMar = c.any recIsMar := perm_any_eq (clSorted_perm c) _
    have hM : (merge_cluster c).maritime = MVal.mbool (c.any recIsMar) := by
      show MVal.mbool ((clSorted c).any recIsMar) = MVal.mbool (c.any recIsMar)
      rw [hany]
    refine ⟨hM, ?_⟩
    rw [hM]
    cases h : c.any recIsMar
    · rw [show mIsTrue (MVal.mbool false) = false from rfl]
      simp only [Bool.false_eq_true, false_iff]
      rw [List.any_eq_false] at h
      rintro ⟨r, hr, hp⟩
      exact absurd hp (by simpa using h r hr)
    · rw [show mIsTrue (MVal.mbool true) = true from rfl]
      simp only [true_iff]
      exact List.any_eq_true.mp h
  · -- descriptive fields
    have hbne := clSorted_ne c hc
    have hbmem : clBase c ∈ clSorted c := headD_mem _ _ hbne
    refine ⟨clBase c, (clSorted_perm c).mem_iff.mp hbmem, rfl, rfl, rfl, rfl, rfl, rfl, ?_⟩
    intro r hr
    have hrs : r ∈ clSorted c := (clSorted_perm c).mem_iff.mpr hr
    rcases sorted_headD dummyRec (clSorted c) (List.sorted_insertionSort dmgGe c) r hrs with
      h | h
    · rw [h]; exact le_refl _
    · exact h


/-- C2 witness: the ten, fifty and thirty character cluster of the spec
field-resolution test. -/
theorem c2_merge_policy_witness :
    ([recM1, recM2, recM3] : List Rec) ≠ [] ∧ c2MergeSpec [recM1, recM2, recM3] :=
  ⟨List.cons_ne_nil _ _, c2_merge_policy [recM1, recM2, recM3] (List.cons_ne_nil _ _)⟩

lemma ufStep_out (p : List ℕ) (z : ℕ) (h : p.length ≤ z) : ufStep p z = z :=
  List.getD_eq_default p z h

lemma iterate_out (p : List ℕ) (z : ℕ) (h : p.length ≤ z) (k : ℕ) :
    (ufStep p)^[k] z = z := by
  induction k with
  | zero => rfl
  | succ k ih => rw [Function.iterate_succ_apply', ih, ufStep_out p z h]

lemma orbit_lt (p : List ℕ) (hB : Bounded p) (z : ℕ) (h : z < p.length) (k : ℕ) :
    (ufStep p)^[k] z < p.length := by
  induction k with
  | zero => exact h
  | succ k ih => rw [Function.iterate_succ_apply']; exact hB _ ih

lemma root_iterate (p : List ℕ) (r : ℕ) (h : isRootP p r) (k : ℕ) :
    (ufStep p)^[k] r = r := by
  induction k with
  | zero => rfl
  | succ k ih => rw [Function.iterate_succ_apply', ih, h]

lemma iterate_stable_after (p : List ℕ) (z r k : ℕ) (hk : (ufStep p)^[k] z = r)
    (hr : isRootP p r) (t : ℕ) (ht : k ≤ t) : (ufStep p)^[t] z = r := by
  have : (ufStep p)^[t] z = (ufStep p)^[t - k] ((ufStep p)^[k] z) := by
    rw [← Function.iterate_add_apply]
    congr 1
    omega
  rw [this, hk, root_iterate p r hr]

lemma iterate_escape (f : ℕ → ℕ) (z i j : ℕ) (hij : i < j) (hrep : f^[j] z = f^[i] z) :
    ∀ t, i ≤ t → ∃ s, i ≤ s ∧ s < j ∧ f^[t] z = f^[s] z := by
  intro t
  induction t using Nat.strong_induction_on with
  | _ t ih =>
    intro ht
    by_cases hcase : t < j
    · exact ⟨t, ht, hcase, rfl⟩
    · have hstep : f^[t] z = f^[t - j + i] z := by
        have h1 : f^[t] z = f^[t - j] (f^[j] z) := by
          rw [← Function.iterate_add_apply]
          congr 1
          omega
        rw [h1, hrep, ← Function.iterate_add_apply]
      have hlt : t - j + i < t := by omega
      have hge : i ≤ t - j + i := by omega
      obtain ⟨s, hs1, hs2, hs3⟩ := ih (t - j + i) hlt hge
      exact ⟨s, hs1, hs2, hstep.trans hs3⟩

lemma orbit_repeat (p : List ℕ) (hB : Bounded p) (z : ℕ) (hz : z < p.length) :
    ∃ i j, i < j ∧ j ≤ p.length ∧ (ufStep p)^[j] z = (ufStep p)^[i] z := by
  have hmap : ∀ k ∈ Finset.range (p.length + 1),
      (ufStep p)^[k] z ∈ Finset.range p.length := by
    intro k _
    exact Finset.mem_range.mpr (orbit_lt p hB z hz k)
  have hcard : (Finset.range p.length).card < (Finset.range (p.length + 1)).card := by
    simp
  obtain ⟨i, hi, j, hj, hne, heq⟩ :=
    Finset.exists_ne_map_eq_of_card_lt_of_maps_to hcard hmap
  rcases Nat.lt_or_ge i j with h | h
  · exact ⟨i, j, h, Nat.lt_succ_iff.mp (Finset.mem_range.mp hj), heq.symm⟩
  · have : j < i := by omega
    exact ⟨j, i, this, Nat.lt_succ_iff.mp (Finset.mem_range.mp hi), heq⟩

lemma find_early (p : List ℕ) (hB : Bounded p) (hS : Stable p) (z : ℕ)
    (hz : z < p.length) (k : ℕ) (hk : p.length - 1 ≤ k) :
    (ufStep p)^[k] z = ufFind p z := by
  obtain ⟨i, j, hij, hjn, hrep⟩ := orbit_repeat p hB z hz
  have hn : ufFind p z = (ufStep p)^[p.length] z := rfl
  obtain ⟨s, hsi, hsj, hs⟩ := iterate_escape (ufStep p) z i j hij hrep p.length
    (le_trans (Nat.le_of_lt hij) hjn)
  have hfs : (ufStep p)^[s] z = ufFind p z := by rw [hn, hs]
  have hroot : isRootP p (ufFind p z) := hS z
  exact iterate_stable_after p z (ufFind p z) s hfs hroot k (by omega)

lemma ufStep_set_ne (p : List ℕ) (t v y : ℕ) (h : y ≠ t) :
    ufStep (p.set t v) y = ufStep p y := by
  unfold ufStep
  rw [List.getD_eq_getElem?_getD, List.getD_eq_getElem?_getD, List.getElem?_set_ne h.symm]

lemma ufStep_set_self (p : List ℕ) (t v : ℕ) (h : t < p.length) :
    ufStep (p.set t v) t = v := by
  unfold ufStep
  rw [List.getD_eq_getElem?_getD, List.getElem?_set_self (by simpa using h)]
  rfl

lemma iterate_set_agree (p : List ℕ) (t v z : ℕ) (k : ℕ)
    (h : ∀ m, m < k → (ufStep p)^[m] z ≠ t) :
    (ufStep (p.set t v))^[k] z = (ufStep p)^[k] z := by
  induction k with
  | zero => rfl
  | succ k ih =>
    rw [Function.iterate_succ_apply', Function.iterate_succ_apply',
      ih (fun m hm => h m (by omega)), ufStep_set_ne p t v _ (h k (by omega))]

lemma ufUnion_eq (p : List ℕ) (a b : ℕ) :
    ufUnion p a b =
      if ufFind p a = ufFind p b then p else p.set (ufFind p a) (ufFind p b) := rfl

lemma ufUnion_length (p : List ℕ) (a b : ℕ) : (ufUnion p a b).length = p.length := by
  rw [ufUnion_eq]
  split
  · rfl
  · simp

lemma ufFind_union (p : List ℕ) (hB : Bounded p) (hS : Stable p) (a b : ℕ)
    (ha : a < p.length) (hb : b < p.length) (z : ℕ) :
    ufFind (ufUnion p a b) z =
      if ufFind p z = ufFind p a then ufFind p b else ufFind p z := by
  have hpx_lt : ufFind p a < p.length := orbit_lt p hB a ha p.length
  have hpy_lt : ufFind p b < p.length := orbit_lt p hB b hb p.length
  have hpxroot : isRootP p (ufFind p a) := hS a
  have hpyroot : isRootP p (ufFind p b) := hS b
  by_cases hpp : ufFind p a = ufFind p b
  · have hU : ufUnion p a b = p := by
      unfold ufUnion
      rw [if_pos hpp]
    rw [hU]
    split
    · rename_i h
      rw [h, hpp]
    · rfl
  · have hU : ufUnion p a b = p.set (ufFind p a) (ufFind p b) := by
      unfold ufUnion
      rw [if_neg hpp]
    have hlen : (ufUnion p a b).length = p.length := ufUnion_length p a b
    have hfind' : ∀ w, ufFind (ufUnion p a b) w =
        (ufStep (p.set (ufFind p a) (ufFind p b)))^[p.length] w := by
      intro w
      show (ufStep (ufUnion p a b))^[(ufUnion p a b).length] w = _
      rw [hlen, hU]
    by_cases hz : z < p.length
    · by_cases hit : ∃ m, (ufStep p)^[m] z = ufFind p a
      · have hfz : ufFind p z = ufFind p a := by
          obtain ⟨m, hm⟩ := hit
          rcases le_or_lt m p.length with h | h
          · exact iterate_stable_after p z (ufFind p a) m hm hpxroot p.length h
          · have h2 : (ufStep p)^[m] z = ufFind p z :=
              iterate_stable_after p z (ufFind p z) p.length rfl (hS z) m (le_of_lt h)
            rw [← hm, h2]
        have hne1 : 1 ≤ p.length := by omega
        have hP1 : (ufStep p)^[p.length - 1] z = ufFind p a := by
          rw [find_early p hB hS z hz (p.length - 1) (le_refl _), hfz]
        have hmle : Nat.find hit ≤ p.length - 1 := Nat.find_min' hit hP1
        have hm := Nat.find_spec hit
        have hagree : (ufStep (p.set (ufFind p a) (ufFind p b)))^[Nat.find hit] z =
            ufFind p a := by
          rw [iterate_set_agree p (ufFind p a) (ufFind p b) z (Nat.find hit)
            (fun k hk => Nat.find_min hit hk)]
          exact hm
        have hnext : (ufStep (p.set (ufFind p a) (ufFind p b)))^[Nat.find hit + 1] z =
            ufFind p b := by
          rw [Function.iterate_succ_apply', hagree,
            ufStep_set_self p (ufFind p a) (ufFind p b) hpx_lt]
        have hpyroot' : isRootP (p.set (ufFind p a) (ufFind p b)) (ufFind p b) := by
          unfold isRootP
          rw [ufStep_set_ne p (ufFind p a) (ufFind p b) (ufFind p b)
            (fun hc => hpp hc.symm)]
          exact hpyroot
        rw [hfind' z, if_pos hfz]
        exact iterate_stable_after (p.set (ufFind p a) (ufFind p b)) z (ufFind p b)
          (Nat.find hit + 1) hnext hpyroot' p.length (by omega)
      · push_neg at hit
        have hagree : (ufStep (p.set (ufFind p a) (ufFind p b)))^[p.length] z =
            (ufStep p)^[p.length] z :=
          iterate_set_agree p (ufFind p a) (ufFind p b) z p.length (fun m _ => hit m)
        rw [hfind' z, hagree]
        exact (if_neg (hit p.length)).symm
    · have h1 : ufFind p z = z := iterate_out p z (by omega) p.length
      have h2 : ufFind (ufUnion p a b) z = z := by
        rw [hfind' z]
        exact iterate_out (p.set (ufFind p a) (ufFind p b)) z (by simpa using by omega)
          p.length
      rw [h1, h2, if_neg (by omega)]

lemma bounded_union (p : List ℕ) (hB : Bounded p) (a b : ℕ)
    (ha : a < p.length) (hb : b < p.length) : Bounded (ufUnion p a b) := by
  have hpx_lt : ufFind p a < p.length := orbit_lt p hB a ha p.length
  have hpy_lt : ufFind p b < p.length := orbit_lt p hB b hb p.length
  intro x hx
  rw [ufUnion_length] at hx
  rw [ufUnion_length, ufUnion_eq]
  by_cases hpp : ufFind p a = ufFind p b
  · rw [if_pos hpp]
    exact hB x hx
  · rw [if_neg hpp]
    by_cases hxe : x = ufFind p a
    · subst hxe
      rw [ufStep_set_self p _ _ hpx_lt]
      exact hpy_lt
    · rw [ufStep_set_ne p _ _ x hxe]
      exact hB x hx

lemma stable_union (p : List ℕ) (hB : Bounded p) (hS : Stable p) (a b : ℕ)
    (ha : a < p.length) (hb : b < p.length) : Stable (ufUnion p a b) := by
  intro z
  rw [ufFind_union p hB hS a b ha hb z]
  have hroot_same : ∀ r, isRootP p r → r ≠ ufFind p a → isRootP (ufUnion p a b) r := by
    intro r hr hne
    unfold isRootP
    rw [ufUnion_eq]
    by_cases hpp : ufFind p a = ufFind p b
    · rw [if_pos hpp]
      exact hr
    · rw [if_neg hpp, ufStep_set_ne p _ _ r hne]
      exact hr
  split
  · by_cases hpp : ufFind p a = ufFind p b
    · have hU : ufUnion p a b = p := by rw [ufUnion_eq, if_pos hpp]
      unfold isRootP
      rw [hU]
      exact hS b
    · exact hroot_same _ (hS b) (fun hc => hpp hc.symm)
  · rename_i hne
    exact hroot_same _ (hS z) hne

lemma uf_fold_spec : ∀ (es : List (ℕ × ℕ × Bool)) (p : List ℕ), Bounded p → Stable p →
    (∀ e ∈ es, e.1 < p.length ∧ e.2.1 < p.length) →
    (es.foldl (fun q e => ufUnion q e.1 e.2.1) p).length = p.length ∧
    Bounded (es.foldl (fun q e => ufUnion q e.1 e.2.1) p) ∧
    Stable (es.foldl (fun q e => ufUnion q e.1 e.2.1) p) ∧
    (∀ x y, ufFind p x = ufFind p y →
      ufFind (es.foldl (fun q e => ufUnion q e.1 e.2.1) p) x =
        ufFind (es.foldl (fun q e => ufUnion q e.1 e.2.1) p) y) ∧
    (∀ e ∈ es, ufFind (es.foldl (fun q e => ufUnion q e.1 e.2.1) p) e.1 =
      ufFind (es.foldl (fun q e => ufUnion q e.1 e.2.1) p) e.2.1) := by
  intro es
  induction es with
  | nil =>
    intro p hB hS _
    exact ⟨rfl, hB, hS, fun x y h => h, by simp⟩
  | cons e rest ih =>
    intro p hB hS hbnd
    simp only [List.foldl_cons]
    have ha := (hbnd e (List.mem_cons_self _ _)).1
    have hb := (hbnd e (List.mem_cons_self _ _)).2
    have hlen1 : (ufUnion p e.1 e.2.1).length = p.length := ufUnion_length p e.1 e.2.1
    have hB1 : Bounded (ufUnion p e.1 e.2.1) := bounded_union p hB e.1 e.2.1 ha hb
    have hS1 : Stable (ufUnion p e.1 e.2.1) := stable_union p hB hS e.1 e.2.1 ha hb
    have hbnd1 : ∀ f ∈ rest, f.1 < (ufUnion p e.1 e.2.1).length ∧
        f.2.1 < (ufUnion p e.1 e.2.1).length := by
      intro f hf
      rw [hlen1]
      exact hbnd f (List.mem_cons_of_mem _ hf)
    obtain ⟨ihlen, ihB, ihS, ihpres, ihedges⟩ := ih (ufUnion p e.1 e.2.1) hB1 hS1 hbnd1
    refine ⟨ihlen.trans hlen1, ihB, ihS, ?_, ?_⟩
    · intro x y h
      apply ihpres
      rw [ufFind_union p hB hS e.1 e.2.1 ha hb x, ufFind_union p hB hS e.1 e.2.1 ha hb y, h]
    · intro f hf
      rcases List.mem_cons.mp hf with rfl | hf
      · have h1 : ufFind (ufUnion p f.1 f.2.1) f.1 = ufFind p f.2.1 := by
          rw [ufFind_union p hB hS f.1 f.2.1 ha hb, if_pos rfl]
        have h2 : ufFind (ufUnion p f.1 f.2.1) f.2.1 = ufFind p f.2.1 := by
          rw [ufFind_union p hB hS f.1 f.2.1 ha hb]
          split <;> rfl
        exact ihpres f.1 f.2.1 (h1.trans h2.symm)
      · exact ihedges f hf

lemma ufStep_range (n x : ℕ) : ufStep (List.range n) x = x := by
  unfold ufStep
  by_cases h : x < n
  · rw [List.getD_eq_getElem?_getD, List.getElem?_range h]
    rfl
  · exact List.getD_eq_default _ _ (by simpa using h)

lemma ufFind_range (n x : ℕ) : ufFind (List.range n) x = x :=
  root_iterate (List.range n) x (ufStep_range n x) _

lemma bounded_range (n : ℕ) : Bounded (List.range n) := by
  intro x hx
  rw [ufStep_range]
  simpa using hx

lemma stable_range (n : ℕ) : Stable (List.range n) := by
  intro x
  rw [ufFind_range]
  exact ufStep_range n x

lemma bool_eq_of_iff {x y : Bool} (h : x = true ↔ y = true) : x = y := by
  cases x <;> cases y <;> simp_all

lemma event_dates_close_symm (a b : Rec) : event_dates_close a b = event_dates_close b a := by
  unfold event_dates_close
  cases parse_date a.date <;> cases parse_date b.date <;> simp
  omega

lemma same_target_type_symm (a b : Rec) : same_target_type a b = same_target_type b a := by
  apply bool_eq_of_iff
  simp only [same_target_type, Bool.or_eq_true, decide_eq_true_eq, List.any_eq_true,
    Bool.and_eq_true]
  constructor
  · rintro (((h | h) | h) | ⟨g, hg, h1, h2⟩)
    · exact Or.inl (Or.inl (Or.inl h.symm))
    · exact Or.inl (Or.inr h)
    · exact Or.inl (Or.inl (Or.inr h))
    · exact Or.inr ⟨g, hg, h2, h1⟩
  · rintro (((h | h) | h) | ⟨g, hg, h1, h2⟩)
    · exact Or.inl (Or.inl (Or.inl h.symm))
    · exact Or.inl (Or.inr h)
    · exact Or.inl (Or.inl (Or.inr h))
    · exact Or.inr ⟨g, hg, h2, h1⟩

lemma coordClose_symm (hav : ℚ → ℚ → ℚ → ℚ → ℚ)
    (hsym : ∀ x y z w, hav x y z w = hav z w x y) (a b : Rec) :
    coordClose hav a b = coordClose hav b a := by
  unfold coordClose
  rw [hsym]
  by_cases h1 : hasCoords a <;> by_cases h2 : hasCoords b <;> simp [h1, h2]

lemma cityMatch_symm (a b : Rec) : cityMatch a b = cityMatch b a := by
  apply bool_eq_of_iff
  simp only [cityMatch, Bool.and_eq_true, Bool.or_eq_true, decide_eq_true_eq, ne_eq]
  constructor
  · rintro ⟨⟨h1, h2⟩, ((h | h) | h) | ⟨⟨h4, h5⟩, h6⟩⟩
    · exact ⟨⟨h2, h1⟩, Or.inl (Or.inl (Or.inl h.symm))⟩
    · exact ⟨⟨h2, h1⟩, Or.inl (Or.inr h)⟩
    · exact ⟨⟨h2, h1⟩, Or.inl (Or.inl (Or.inr h))⟩
    · exact ⟨⟨h2, h1⟩, Or.inr ⟨⟨h5, h4⟩, h6.symm⟩⟩
  · rintro ⟨⟨h1, h2⟩, ((h | h) | h) | ⟨⟨h4, h5⟩, h6⟩⟩
    · exact ⟨⟨h2, h1⟩, Or.inl (Or.inl (Or.inl h.symm))⟩
    · exact ⟨⟨h2, h1⟩, Or.inl (Or.inr h)⟩
    · exact ⟨⟨h2, h1⟩, Or.inl (Or.inl (Or.inr h))⟩
    · exact ⟨⟨h2, h1⟩, Or.inr ⟨⟨h5, h4⟩, h6.symm⟩⟩

lemma regionFacilityMatch_symm (a b : Rec) :
    regionFacilityMatch a b = regionFacilityMatch b a := by
  apply bool_eq_of_iff
  simp only [regionFacilityMatch, Bool.and_eq_true, Bool.or_eq_true, decide_eq_true_eq, ne_eq]
  constructor
  · rintro ⟨⟨⟨⟨⟨h1, h2⟩, h3⟩, h4⟩, h5⟩, h6 | h6⟩
    · exact ⟨⟨⟨⟨⟨h2, h1⟩, h3.symm⟩, h5⟩, h4⟩, Or.inr h6⟩
    · exact ⟨⟨⟨⟨⟨h2, h1⟩, h3.symm⟩, h5⟩, h4⟩, Or.inl h6⟩
  · rintro ⟨⟨⟨⟨⟨h1, h2⟩, h3⟩, h4⟩, h5⟩, h6 | h6⟩
    · exact ⟨⟨⟨⟨⟨h2, h1⟩, h3.symm⟩, h5⟩, h4⟩, Or.inr h6⟩
    · exact ⟨⟨⟨⟨⟨h2, h1⟩, h3.symm⟩, h5⟩, h4⟩, Or.inl h6⟩

lemma locations_match_symm (hav : ℚ → ℚ → ℚ → ℚ → ℚ)
    (hsym : ∀ x y z w, hav x y z w = hav z w x y) (a b : Rec) :
    locations_match hav a b = locations_match hav b a := by
  unfold locations_match
  rw [coordClose_symm hav hsym a b, cityMatch_symm a b, regionFacilityMatch_symm a b]

lemma weak_match_iff (a b : Rec) : locations_weak_match a b = true ↔
    pyNormalize a.city = [] ∧ pyNormalize b.city = [] ∧
    pyNormalize a.region ≠ [] ∧ pyNormalize a.region = pyNormalize b.region ∧
    (pyNormalize a.facility_name = [] ∨ pyNormalize b.facility_name = [] ∨
      infixB (pyNormalize a.facility_name) (pyNormalize b.facility_name) = true ∨
      infixB (pyNormalize b.facility_name) (pyNormalize a.facility_name) = true) := by
  unfold locations_weak_match
  dsimp only
  split_ifs with g1 g2 g3
  · simp only [Bool.false_eq_true, false_iff]
    simp only [Bool.or_eq_true, decide_eq_true_eq, ne_eq] at g1
    rintro ⟨hc1, hc2, _⟩
    rcases g1 with h | h
    · exact h hc1
    · exact h hc2
  · simp only [Bool.false_eq_true, false_iff]
    simp only [Bool.or_eq_true, decide_eq_true_eq, ne_eq] at g2
    rintro ⟨_, _, hr1, hr2, _⟩
    rcases g2 with (h | h) | h
    · exact hr1 h
    · exact hr1 (hr2.trans h)
    · exact h hr2
  · simp only [Bool.or_eq_true, decide_eq_true_eq, ne_eq] at g1 g2
    simp only [Bool.and_eq_true, decide_eq_true_eq, ne_eq] at g3
    push_neg at g1 g2
    constructor
    · intro h
      simp only [Bool.or_eq_true] at h
      exact ⟨g1.1, g1.2, g2.1.1, g2.2, Or.inr (Or.inr h)⟩
    · rintro ⟨_, _, _, _, hfac⟩
      simp only [Bool.or_eq_true]
      rcases hfac with h | h | h | h
      · exact absurd h g3.1
      · exact absurd h g3.2
      · exact Or.inl h
      · exact Or.inr h
  · simp only [Bool.or_eq_true, decide_eq_true_eq, ne_eq] at g1 g2
    simp only [Bool.and_eq_true, decide_eq_true_eq, ne_eq] at g3
    push_neg at g1 g2
    simp only [true_iff]
    refine ⟨g1.1, g1.2, g2.1.1, g2.2, ?_⟩
    by_cases hfa : pyNormalize a.facility_name = []
    · exact Or.inl hfa
    · rcases not_and_or.mp g3 with h | h
      · exact absurd (not_not.mp h) hfa
      · exact Or.inr (Or.inl (not_not.mp h))

lemma locations_weak_match_symm (a b : Rec) :
    locations_weak_match a b = locations_weak_match b a := by
  apply bool_eq_of_iff
  rw [weak_match_iff, weak_match_iff]
  constructor
  · rintro ⟨h1, h2, h3, h4, h5⟩
    refine ⟨h2, h1, h4 ▸ h3, h4.symm, ?_⟩
    rcases h5 with h | h | h | h
    · exact Or.inr (Or.inl h)
    · exact Or.inl h
    · exact Or.inr (Or.inr (Or.inr h))
    · exact Or.inr (Or.inr (Or.inl h))
  · rintro ⟨h1, h2, h3, h4, h5⟩
    refine ⟨h2, h1, h4 ▸ h3, h4.symm, ?_⟩
    rcases h5 with h | h | h | h
    · exact Or.inr (Or.inl h)
    · exact Or.inl h
    · exact Or.inr (Or.inr (Or.inr h))
    · exact Or.inr (Or.inr (Or.inl h))

lemma directMatch_symm (hav : ℚ → ℚ → ℚ → ℚ → ℚ)
    (hsym : ∀ x y z w, hav x y z w = hav z w x y) (a b : Rec) :
    directMatch hav a b = directMatch hav b a := by
  unfold directMatch pairKind
  rw [event_dates_close_symm a b, same_target_type_symm a b,
    locations_match_symm hav hsym a b, locations_weak_match_symm a b]

lemma edc_parse (a b : Rec) (h : event_dates_close a b = true) :
    ∃ da db, parse_date a.date = some da ∧ parse_date b.date = some db ∧
      (da - db).natAbs ≤ 2 := by
  unfold event_dates_close at h
  cases ha : parse_date a.date with
  | none => rw [ha] at h; simp at h
  | some da =>
    cases hb : parse_date b.date with
    | none => rw [ha, hb] at h; simp at h
    | some db =>
      rw [ha, hb] at h
      exact ⟨da, db, rfl, rfl, by simpa using h⟩

lemma sl_mem (l : List Rec) (x : Rec) (hx : x ∈ sortByDate (lowFilter l)) : x ∈ l := by
  rw [sortByDate, (List.perm_insertionSort dateLe (lowFilter l)).mem_iff] at hx
  exact List.mem_of_mem_filter hx

lemma scanList_complete (hav : ℚ → ℚ → ℚ → ℚ → ℚ) (l : List Rec) (i jt : ℕ) (w : Bool) :
    ∀ (k s : ℕ), s ≤ jt → jt < s + k →
      (∀ j', s ≤ j' → j' ≤ jt →
        breakCond (l.getD i dummyRec) (l.getD j' dummyRec) = false) →
      pairKind hav (l.getD i dummyRec) (l.getD jt dummyRec) = some w →
      (i, jt, w) ∈ scanList hav l i (List.range' s k) := by
  intro k
  induction k with
  | zero => intro s h1 h2 _ _; omega
  | succ k ih =>
    intro s hs hlt hbr hk
    have hbrs : breakCond (l.getD i dummyRec) (l.getD s dummyRec) = false :=
      hbr s (le_refl s) hs
    show (i, jt, w) ∈ scanList hav l i (s :: List.range' (s + 1) k)
    by_cases hse : s = jt
    · subst hse
      simp only [scanList, hbrs, Bool.false_eq_true, if_false, hk]
      exact List.mem_cons_self _ _
    · have htail : (i, jt, w) ∈ scanList hav l i (List.range' (s + 1) k) :=
        ih (s + 1) (by omega) (by omega) (fun j' h1 h2 => hbr j' (by omega) h2) hk
      simp only [scanList, hbrs, Bool.false_eq_true, if_false]
      cases hpk : pairKind hav (l.getD i dummyRec) (l.getD s dummyRec) with
      | some w' => exact List.mem_cons_of_mem _ htail
      | none => exact htail

lemma dedupEdges_bounds (hav : ℚ → ℚ → ℚ → ℚ → ℚ) (l : List Rec) :
    ∀ e ∈ dedupEdges hav l, e.1 < l.length ∧ e.2.1 < l.length := by
  intro e he
  rcases List.mem_flatMap.mp he with ⟨i, hi, hmem⟩
  obtain ⟨a, b, w⟩ := e
  rcases scanList_mem _ _ _ _ _ _ _ hmem with ⟨rfl, hb, _⟩
  rcases List.mem_range'_1.mp hb with ⟨h1, h2⟩
  have hia : a < l.length := List.mem_range.mp hi
  exact ⟨hia, show b < l.length by omega⟩

lemma dmOK_le (a b : Rec) (h : dmOK a b = true) (x y : ℤ)
    (hx : parse_date a.date = some x) (hy : parse_date b.date = some y)
    (hle : lexLe a.date.data b.date.data = true) : x ≤ y := by
  unfold dmOK at h
  rw [hx, hy, hle] at h
  simpa using h

lemma edge_of_match (hav : ℚ → ℚ → ℚ → ℚ → ℚ) (l : List Rec)
    (hmono : ∀ a ∈ l, ∀ b ∈ l, dmOK a b = true)
    (i j : ℕ) (w : Bool)
    (hi : i < (sortByDate (lowFilter l)).length)
    (hj : j < (sortByDate (lowFilter l)).length) (hij : i < j)
    (hm : pairKind hav ((sortByDate (lowFilter l)).getD i dummyRec)
      ((sortByDate (lowFilter l)).getD j dummyRec) = some w) :
    (i, j, w) ∈ dedupEdges hav (sortByDate (lowFilter l)) := by
  set sl := sortByDate (lowFilter l) with hsl
  have hsorted : List.Sorted dateLe sl := List.sorted_insertionSort dateLe (lowFilter l)
  have hdates := pairKind_some _ _ _ _ hm
  obtain ⟨di, dj, hdi, hdj, hclose⟩ := edc_parse _ _ hdates.1
  have hgdmem : ∀ k, k < sl.length → sl.getD k dummyRec ∈ l := by
    intro k hk
    rw [List.getD_eq_getElem sl dummyRec hk]
    exact sl_mem l _ (List.getElem_mem hk)
  have hbreak : ∀ j', i + 1 ≤ j' → j' ≤ j →
      breakCond (sl.getD i dummyRec) (sl.getD j' dummyRec) = false := by
    intro j' h1 h2
    by_contra hbc
    have hbc' : breakCond (sl.getD i dummyRec) (sl.getD j' dummyRec) = true := by
      cases h : breakCond (sl.getD i dummyRec) (sl.getD j' dummyRec)
      · exact absurd h hbc
      · rfl
    unfold breakCond at hbc'
    rw [hdi] at hbc'
    cases hdj' : parse_date ((sl.getD j' dummyRec).date) with
    | none => rw [hdj'] at hbc'; simp at hbc'
    | some dj' =>
      rw [hdj'] at hbc'
      have hgt : 2 < dj' - di := by simpa using hbc'
      have hj'lt : j' < sl.length := by omega
      have hrel : dateLe (sl.getD j' dummyRec) (sl.getD j dummyRec) := by
        rcases Nat.lt_or_ge j' j with hlt | hge
        · have hp := (List.pairwise_iff_getElem.mp hsorted) j' j hj'lt hj hlt
          unfold dateLe
          rw [List.getD_eq_getElem sl dummyRec hj'lt, List.getD_eq_getElem sl dummyRec hj]
          exact hp
        · have : j' = j := by omega
          subst this
          exact lexLe_refl _
      have hle : dj' ≤ dj :=
        dmOK_le _ _ (hmono _ (hgdmem j' hj'lt) _ (hgdmem j hj)) dj' dj hdj' hdj hrel
      omega
  unfold dedupEdges
  refine List.mem_flatMap.mpr ⟨i, List.mem_range.mpr (by omega), ?_⟩
  unfold scanFrom
  exact scanList_complete hav sl i j w (sl.length - (i + 1)) (i + 1) (by omega) (by omega)
    hbreak hm

/-- C3: if record A directly matches B, and B directly matches C, while A
does not directly match C, the clusterer still places the three in one
cluster: the matched pairs are guaranteed to be unioned (the date-sorted
scan cannot break before reaching them when string order refines parsed
date order, as zero-padded ISO dates do), and union-find transitively links
them under one root, producing a single cluster containing all three.  The
distance function is arbitrary but symmetric, as the haversine distance
is. -/
theorem c3_transitive_closure (hav : ℚ → ℚ → ℚ → ℚ → ℚ) (l : List Rec)
    (hsym : ∀ x y z w, hav x y z w = hav z w x y)
    (hmono : ∀ a ∈ l, ∀ b ∈ l, dmOK a b = true)
    (iA iB iC : ℕ)
    (hA : iA < (sortByDate (lowFilter l)).length)
    (hB : iB < (sortByDate (lowFilter l)).length)
    (hC : iC < (sortByDate (lowFilter l)).length)
    (hAB : directMatch hav ((sortByDate (lowFilter l)).getD iA dummyRec)
      ((sortByDate (lowFilter l)).getD iB dummyRec) = true)
    (hBC : directMatch hav ((sortByDate (lowFilter l)).getD iB dummyRec)
      ((sortByDate (lowFilter l)).getD iC dummyRec) = true)
    (_hAC : directMatch hav ((sortByDate (lowFilter l)).getD iA dummyRec)
      ((sortByDate (lowFilter l)).getD iC dummyRec) = false) :
    c3Spec hav l iA iB iC := by
  unfold c3Spec
  set sl := sortByDate (lowFilter l) with hsl
  set es := dedupEdges hav sl with hes
  obtain ⟨hlen, hBq, hSq, hpres, hedges⟩ := uf_fold_spec es (List.range sl.length)
    (bounded_range _) (stable_range _)
    (by
      intro e he
      have := dedupEdges_bounds hav sl e he
      simpa using this)
  have hbp : buildParent sl.length es =
      es.foldl (fun q e => ufUnion q e.1 e.2.1) (List.range sl.length) := rfl
  have key : ∀ i j, i < sl.length → j < sl.length →
      directMatch hav (sl.getD i dummyRec) (sl.getD j dummyRec) = true →
      ufFind (buildParent sl.length es) i = ufFind (buildParent sl.length es) j := by
    intro i j hi hj hm
    rcases Nat.lt_trichotomy i j with hij | hij | hij
    · obtain ⟨w, hw⟩ := Option.isSome_iff_exists.mp hm
      have hedge := edge_of_match hav l hmono i j w hi hj hij hw
      rw [hbp]
      exact hedges (i, j, w) hedge
    · subst hij; rfl
    · rw [directMatch_symm hav hsym] at hm
      obtain ⟨w, hw⟩ := Option.isSome_iff_exists.mp hm
      have hedge := edge_of_match hav l hmono j i w hj hi hij hw
      rw [hbp]
      exact (hedges (j, i, w) hedge).symm
  have hABr := key iA iB hA hB hAB
  have hBCr := key iB iC hB hC hBC
  refine ⟨⟨hABr, hBCr⟩, ?_⟩
  set p := buildParent sl.length es with hp
  refine ⟨(((List.range sl.length).filter
      (fun i => ufFind p i = ufFind p iA)).map (fun i => sl.getD i dummyRec),
      ((List.range sl.length).filter (fun i => ufFind p i = ufFind p iA)).any
        (fun i => (weakIdx es).contains i)), ?_, ?_, ?_, ?_⟩
  · show _ ∈ clustersOf hav l
    have hcl : clustersOf hav l = (dedupFirst ((List.range sl.length).map (ufFind p))).map
        (fun r => (((List.range sl.length).filter (fun i => ufFind p i = r)).map
          (fun i => sl.getD i dummyRec),
          ((List.range sl.length).filter (fun i => ufFind p i = r)).any
            (fun i => (weakIdx es).contains i))) := rfl
    rw [hcl]
    refine List.mem_map.mpr ⟨ufFind p iA, ?_, rfl⟩
    exact (dedupFirst_mem _ _).mpr (List.mem_map.mpr ⟨iA, List.mem_range.mpr hA, rfl⟩)
  · exact List.mem_map.mpr ⟨iA, List.mem_filter.mpr ⟨List.mem_range.mpr hA, by simp⟩, rfl⟩
  · exact List.mem_map.mpr ⟨iB, List.mem_filter.mpr ⟨List.mem_range.mpr hB,
      by simp [hABr]⟩, rfl⟩
  · exact List.mem_map.mpr ⟨iC, List.mem_filter.mpr ⟨List.mem_range.mpr hC,
      by simp [← hABr.trans hBCr]⟩, rfl⟩

/-- C3 witness: three same-city records dated two days apart pairwise, with
the outer pair four days apart, form a single chained cluster. -/
theorem c3_witness :
    directMatch hav0 ((sortByDate (lowFilter [recT1, recT2, recT3])).getD 0 dummyRec)
      ((sortByDate (lowFilter [recT1, recT2, recT3])).getD 1 dummyRec) = true ∧
    directMatch hav0 ((sortByDate (lowFilter [recT1, recT2, recT3])).getD 1 dummyRec)
      ((sortByDate (lowFilter [recT1, recT2, recT3])).getD 2 dummyRec) = true ∧
    directMatch hav0 ((sortByDate (lowFilter [recT1, recT2, recT3])).getD 0 dummyRec)
      ((sortByDate (lowFilter [recT1, recT2, recT3])).getD 2 dummyRec) = false ∧
    c3Spec hav0 [recT1, recT2, recT3] 0 1 2 :=
  ⟨by decide, by decide, by decide,
    c3_transitive_closure hav0 [recT1, recT2, recT3] (fun _ _ _ _ => rfl) (by decide)
      0 1 2 (by decide) (by decide) (by decide) (by decide) (by decide) (by decide)⟩

lemma clustersOf_members (hav : ℚ → ℚ → ℚ → ℚ → ℚ) (l : List Rec)
    (cw : List Rec × Bool) (hcw : cw ∈ clustersOf hav l) (r : Rec) (hr : r ∈ cw.1) :
    r ∈ l := by
  set sl := sortByDate (lowFilter l) with hsl
  set p := buildParent sl.length (dedupEdges hav sl) with hp
  have hcl : clustersOf hav l = (dedupFirst ((List.range sl.length).map (ufFind p))).map
      (fun v => (((List.range sl.length).filter (fun i => ufFind p i = v)).map
        (fun i => sl.getD i dummyRec),
        ((List.range sl.length).filter (fun i => ufFind p i = v)).any
          (fun i => (weakIdx (dedupEdges hav sl)).contains i))) := rfl
  rw [hcl] at hcw
  rcases List.mem_map.mp hcw with ⟨v, _, rfl⟩
  rcases List.mem_map.mp hr with ⟨i, hi, rfl⟩
  have hilt : i < sl.length := List.mem_range.mp (List.mem_filter.mp hi).1
  rw [List.getD_eq_getElem sl dummyRec hilt]
  exact sl_mem l _ (List.getElem_mem hilt)

lemma merge_cluster_note (c : List Rec) (h : ∀ r ∈ c, r.dedup_note = none) :
    (merge_cluster c).dedup_note = none := by
  have hbase : (merge_cluster c).dedup_note = (clBase c).dedup_note := rfl
  rw [hbase]
  cases hcs : clSorted c with
  | nil =>
    have hb : clBase c = dummyRec := by rw [clBase, hcs]; rfl
    rw [hb]
    rfl
  | cons a t =>
    have ham : a ∈ c := by
      rw [← (clSorted_perm c).mem_iff, hcs]
      exact List.mem_cons_self a t
    have : clBase c = a := by rw [clBase, hcs]; rfl
    rw [this]
    exact h a ham

/-- C4 counterexample: a three-record cluster in which the pair A and C
matches strongly (same region, substring-compatible facility names) while
A and B, and B and C, match only weakly, is merged into one record that
carries the review annotation, although the cluster is joined by strong
location evidence and so, by the claim, should carry none. -/
theorem c4_counterexample :
    locations_match hav0 recA4 recC4 = true ∧
    locations_match hav0 recA4 recB4 = false ∧
    locations_weak_match recA4 recB4 = true ∧
    (deduplicate hav0 [recA4, recB4, recC4]).length = 1 ∧
    (deduplicate hav0 [recA4, recB4, recC4]).all
      (fun m => m.source_message_id = "idA; idB; idC") = true ∧
    (deduplicate hav0 [recA4, recB4, recC4]).all (fun m => m.dedup_note.isSome) = true := by
  refine ⟨by decide, by decide, by decide, by decide, by decide, by decide⟩

/-- C4 amended: provided no input record already carries the annotation, a
merged record carries it exactly when its cluster has more than one member
and some member index took part in a weak union, that is, a scanned pair
for which the strong location match failed and the weak one held; clusters
that additionally contain strong edges are annotated too. -/
theorem c4_amended (hav : ℚ → ℚ → ℚ → ℚ → ℚ) (l : List Rec)
    (hnote : ∀ r ∈ l, r.dedup_note = none) :
    ∀ cw ∈ clustersOf hav l,
      ((mergeStep cw).dedup_note ≠ none ↔ cw.2 = true ∧ 1 < cw.1.length) := by
  intro cw hcw
  have hmc : (merge_cluster cw.1).dedup_note = none :=
    merge_cluster_note cw.1 (fun r hr => hnote r (clustersOf_members hav l cw hcw r hr))
  unfold mergeStep
  by_cases hcond : (cw.2 && decide (1 < cw.1.length)) = true
  · rw [if_pos hcond]
    simp only [Bool.and_eq_true, decide_eq_true_eq] at hcond
    simp [hcond]
  · rw [if_neg hcond]
    simp only [Bool.and_eq_true, decide_eq_true_eq] at hcond
    rw [hmc]
    simp only [ne_eq, not_true_eq_false, false_iff]
    simpa using hcond

/-- C4 amended witness: the mixed three-record cluster is annotated and its
weak flag with its size explains it. -/
theorem c4_amended_witness :
    (∀ r ∈ ([recA4, recB4, recC4] : List Rec), r.dedup_note = none) ∧
    ∀ cw ∈ clustersOf hav0 [recA4, recB4, recC4],
      ((mergeStep cw).dedup_note ≠ none ↔ cw.2 = true ∧ 1 < cw.1.length) :=
  ⟨by decide, c4_amended hav0 [recA4, recB4, recC4] (by decide)⟩

/-- C8: stage-2 deduplication is not idempotent.  A record with no
confidence field survives the low-confidence filter, but the merge stamps
its confidence with the string low, so a second run drops it and returns
the empty list; and a genuine two-record merge records the later date as
the last-seen date, which a second run resets to the primary date. -/
theorem c8_not_idempotent :
    ((deduplicate hav0 [rec8]).length = 1 ∧
      deduplicate hav0 (deduplicate hav0 [rec8]) = []) ∧
    ((deduplicate hav0 [recL1, recL2]).map (fun r => r.last_event_date) =
        [some "2024-01-02"] ∧
      (deduplicate hav0 (deduplicate hav0 [recL1, recL2])).map
        (fun r => r.last_event_date) = [some "2024-01-01"]) := by
  refine ⟨⟨by decide, by decide⟩, by decide, by decide⟩
